import Mathlib

/- A shallow embedding of the core SampComp pipeline of nanocompore
   (src/nanocompore/SampComp.py): the per-read ingestion and per-position
   aggregation performed by worker processes, the poison-pill queue protocol
   between dispatcher, workers and writer, the comparator invocation, and the
   constructor-time configuration checks.  Numeric signal values are modelled
   as rationals, Python dicts as association lists, fallible Python operations
   (list indexing, dict lookup, division) as Except values. -/

abbrev Err := String

def indexErrPy : Err := "IndexError: list index out of range"

def keyErrPy : Err := "KeyError"

def zeroDivErrPy : Err := "ZeroDivisionError: float division by zero"

/-- Python float division raises ZeroDivisionError when the divisor is zero;
`__process_references` (lines 324-326) divides by the row's dwell_time with no
guard. -/
def pydiv (a b : ℚ) : Except Err ℚ :=
  if b = 0 then .error zeroDivErrPy else .ok (a / b)

/-- Python truthiness of the worker's `prev_pos` variable (`if prev_pos and
pos-prev_pos > 1`, line 320): `None` and `0` are falsy, any other int is
truthy. -/
def pyTruthy : Option Nat → Bool
  | none => false
  | some n => n != 0

/-- One parsed data line of a read chunk (`line_list[2:]`, turned into a dict
by `numeric_cast_dict` keyed on the column names).  Only the fields read by
`__process_references` are kept; the two extended dwell fields are read only
when the extended kmer-quality columns are present. -/
structure Row where
  ref_pos : Nat
  ref_kmer : String
  median : ℚ
  dwell_time : ℚ
  nnnnn_dwell_time : ℚ
  mismatch_dwell_time : ℚ

/-- The parsed content of one read's byte range in an eventalign file:
line 0 is the header (its two tab-separated fields after the leading hash),
line 1 the tab-separated column names, and the remaining lines the data
rows. -/
structure ReadChunk where
  header_read_id : String
  header_ref_id : String
  col_names : List String
  rows : List Row

/-- One entry of the whitelist's per-sample read list: the index fields
(`read["read_id"]`, `read["ref_id"]`) together with the chunk that the stored
byte offset and byte length point at in the sample's eventalign file. -/
structure ReadEntry where
  read_id : String
  ref_id : String
  chunk : ReadChunk

/-- A reference descriptor as dispatched on the input queue: condition label
to sample label to read list, in OrderedDict iteration order. -/
abbrev RefDict := List (String × List (String × List ReadEntry))

/-- The `kmers_stats` counters of one (condition, sample) cell
(`__make_ref_pos_list`, line 483). -/
structure KmerStats where
  missing : Nat
  valid : ℚ
  nnnnn : ℚ
  mismatching : ℚ

/-- The per-(condition, sample) aggregates of one position
(`__make_ref_pos_list`, lines 479-483). -/
structure SampleData where
  intensity : List ℚ
  dwell : List ℚ
  coverage : Nat
  kmers_stats : KmerStats

def emptySampleData : SampleData :=
  { intensity := [], dwell := [], coverage := 0,
    kmers_stats := { missing := 0, valid := 0, nnnnn := 0, mismatching := 0 } }

/-- One entry of `ref_pos_list`: the reference k-mer at the position, the
nested OrderedDict condition -> sample -> aggregates (an association list
here), and the `txComp` annotations the comparator may add (the key being
absent is modelled as `none`). -/
structure PosDict where
  ref_kmer : String
  data : List (String × List (String × SampleData))
  txComp : Option (List String)

/-- First-occurrence lookup in an association list (Python dict `d[k]`,
`none` for KeyError). -/
def alookup (k : String) : List (String × β) → Option β
  | [] => none
  | (k', v) :: t => if k' = k then some v else alookup k t

/-- Update the value at key `k` in place (Python `d[k] = f(d[k])` composed
with whatever inner lookups `f` performs); `none` models a raised KeyError. -/
def aupdateO (k : String) (f : β → Option β) : List (String × β) → Option (List (String × β))
  | [] => none
  | (k', v) :: t =>
    if k' = k then (f v).map (fun v' => (k', v') :: t)
    else (aupdateO k f t).map (fun t' => (k', v) :: t')

/-- The (condition, sample) cell of a position of the table:
`ref_pos_list[pos]["data"][c][s]`. -/
def slotData (tbl : List PosDict) (pos : Nat) (c s : String) : Option SampleData :=
  match tbl[pos]? with
  | none => none
  | some pd => (alookup c pd.data).bind (alookup s)

/-- Lengths of the intensity and dwell sequences together with the coverage
counter of a cell. -/
def covLen (tbl : List PosDict) (pos : Nat) (c s : String) : Option (Nat × Nat × Nat) :=
  (slotData tbl pos c s).map (fun sd => (sd.intensity.length, sd.dwell.length, sd.coverage))

/-- The `missing` counter of a cell. -/
def missingAt (tbl : List PosDict) (pos : Nat) (c s : String) : Option Nat :=
  (slotData tbl pos c s).map (fun sd => sd.kmers_stats.missing)

/-- The k-mer consistency check of lines 309-311: a data row whose `ref_kmer`
differs from the currently stored k-mer makes the worker append the suspect
marker to the stored k-mer instead of raising. -/
def updateKmer (stored rowk : String) : String :=
  if rowk ≠ stored then stored ++ "!!!!" else stored

/-- Lines 314-316: append the row's median and dwell time and bump the
coverage counter of the cell. -/
def appendRowData (row : Row) (sd : SampleData) : SampleData :=
  { sd with intensity := sd.intensity ++ [row.median],
            dwell := sd.dwell ++ [row.dwell_time],
            coverage := sd.coverage + 1 }

/-- Lines 327-329: accumulate the normalised kmer-quality quotients. -/
def addKmerStats (nv nn nm : ℚ) (sd : SampleData) : SampleData :=
  { sd with kmers_stats := { sd.kmers_stats with
      valid := sd.kmers_stats.valid + nv,
      nnnnn := sd.kmers_stats.nnnnn + nn,
      mismatching := sd.kmers_stats.mismatching + nm } }

/-- Line 322: bump the `missing` counter of a cell. -/
def incMissing (sd : SampleData) : SampleData :=
  { sd with kmers_stats := { sd.kmers_stats with
      missing := sd.kmers_stats.missing + 1 } }

/-- Apply `f` to the (c, s) cell of position `pos` of the table, in place
(`ref_pos_list[pos]["data"][c][s]`); `none` models IndexError or KeyError. -/
def updateSlot (pos : Nat) (c s : String) (f : SampleData → SampleData) (tbl : List PosDict) : Option (List PosDict) :=
  match tbl[pos]? with
  | none => none
  | some pd =>
    match aupdateO c (aupdateO s (fun sd => some (f sd))) pd.data with
    | none => none
    | some d' => some (tbl.set pos { pd with data := d' })

/-- The gap-filling loop body of lines 321-322, run over the listed skipped
positions. -/
def fillList (c s : String) : List PosDict → List Nat → Except Err (List PosDict)
  | tbl, [] => .ok tbl
  | tbl, p :: ps =>
    match updateSlot p c s incMissing tbl with
    | none => .error keyErrPy
    | some t' => fillList c s t' ps

/-- Ingestion of one data row by `__process_references` (lines 303-331), for
condition label `c` and sample label `s`, threading the table and `prev_pos`.
Stages in source order: k-mer consistency annotation (309-311), intensity /
dwell / coverage update (314-316) and, when the extended kmer-quality columns
are present, gap filling for skipped positions (320-322), the three
normalised quotients (324-326), their accumulation (327-329) and the update
of `prev_pos` (331). -/
def ingestRow (c s : String) (ks : Bool) : List PosDict × Option Nat → Row → Except Err (List PosDict × Option Nat)
  | (tbl, prev), row =>
    match tbl[row.ref_pos]? with
    | none => .error indexErrPy
    | some pd =>
      match updateSlot row.ref_pos c s (appendRowData row)
          (tbl.set row.ref_pos { pd with ref_kmer := updateKmer pd.ref_kmer row.ref_kmer }) with
      | none => .error keyErrPy
      | some tbl2 =>
        if ks then
          match (if pyTruthy prev ∧ row.ref_pos - prev.getD 0 > 1 then
                   fillList c s tbl2 (List.range' (prev.getD 0 + 1) (row.ref_pos - (prev.getD 0 + 1)))
                 else .ok tbl2) with
          | .error e => .error e
          | .ok tbl3 =>
            match pydiv (row.dwell_time - (row.nnnnn_dwell_time + row.mismatch_dwell_time)) row.dwell_time,
                  pydiv row.nnnnn_dwell_time row.dwell_time,
                  pydiv row.mismatch_dwell_time row.dwell_time with
            | .ok nv, .ok nn, .ok nm =>
              match updateSlot row.ref_pos c s (addKmerStats nv nn nm) tbl3 with
              | none => .error keyErrPy
              | some tbl4 => .ok (tbl4, some row.ref_pos)
            | .error e, _, _ => .error e
            | _, .error e, _ => .error e
            | _, _, .error e => .error e
        else .ok (tbl2, prev)

/-- The row loop of lines 303-331 over `line_list[2:]`. -/
def foldRows (c s : String) (ks : Bool) (st : List PosDict × Option Nat) : List Row → Except Err (List PosDict × Option Nat)
  | [] => .ok st
  | r :: rest =>
    match ingestRow c s ks st r with
    | .error e => .error e
    | .ok st' => foldRows c s ks st' rest

/-- Modelled from the spec: `all_values_in` (nanocompore.common, not under
src/) decides whether every required value occurs in the list. -/
def all_values_in (vals l : List String) : Bool :=
  vals.all (fun v => l.contains v)

/-- Processing of one read by the worker (lines 281-331): header consistency
check against the index entry (288-291), required-column check (294-297),
detection of the extended kmer-quality columns (299), then the row loop with
`prev_pos` starting at `None` (302). -/
def processRead (c s : String) (tbl : List PosDict) (entry : ReadEntry) : Except Err (List PosDict) :=
  if ¬ entry.chunk.header_read_id = entry.read_id ∨ ¬ entry.chunk.header_ref_id = entry.ref_id then
    .error "Index and data files are not matching"
  else if ¬ all_values_in ["ref_pos", "ref_kmer", "median", "dwell_time"] entry.chunk.col_names then
    .error "Required fields not found in the data file"
  else
    let ks := all_values_in ["NNNNN_dwell_time", "mismatch_dwell_time"] entry.chunk.col_names
    match foldRows c s ks (tbl, none) entry.chunk.rows with
    | .error e => .error e
    | .ok st => .ok st.1

/-- The read loop of line 281 for one (condition, sample) pair. -/
def foldReads (c s : String) : List ReadEntry → List PosDict → Except Err (List PosDict)
  | [], tbl => .ok tbl
  | e :: rest, tbl =>
    match processRead c s tbl e with
    | .error e' => .error e'
    | .ok t' => foldReads c s rest t'

/-- The sample loop of line 278.  The file-pointer lookup
`fp_dict[cond_lab][sample_lab]` (line 279) is modelled as a lookup in the
label structure of `eventalign_fn_dict`; a missing label raises KeyError. -/
def foldSamples (fps : List (String × List String)) (c : String) : List (String × List ReadEntry) → List PosDict → Except Err (List PosDict)
  | [], tbl => .ok tbl
  | (s, entries) :: rest, tbl =>
    match alookup c fps with
    | none => .error keyErrPy
    | some labs =>
      if labs.contains s then
        match foldReads c s entries tbl with
        | .error e => .error e
        | .ok t' => foldSamples fps c rest t'
      else .error keyErrPy

/-- The condition loop of line 277. -/
def foldConds (fps : List (String × List String)) : RefDict → List PosDict → Except Err (List PosDict)
  | [], tbl => .ok tbl
  | (c, sdict) :: rest, tbl =>
    match foldSamples fps c sdict tbl with
    | .error e => .error e
    | .ok t' => foldConds fps rest t'

/-- `__make_ref_pos_list` (lines 463-485): one entry per position in
`range(ref_len - 4)`, holding the 5-mer of the reference sequence at that
position and an empty aggregate cell per (condition, sample) of
`eventalign_fn_dict`. -/
def makeRefPosList (ref_seq : String) (samples : List (String × List String)) : List PosDict :=
  (List.range (ref_seq.length - 4)).map (fun pos =>
    { ref_kmer := String.mk ((ref_seq.toList.drop pos).take 5),
      data := samples.map (fun cp => (cp.1, cp.2.map (fun s => (s, emptySampleData)))),
      txComp := none })

/-- `np.random.RandomState(seed=42)` (line 335), modelled by its seed. -/
structure RandomState where
  seed : Nat

/-- The argument record of the `txCompare` call (lines 336-345). -/
structure ComparatorArgs where
  ref_id : String
  ref_pos_list : List PosDict
  methods : List String
  sequence_context : Nat
  sequence_context_weights : String
  min_coverage : Nat
  allow_warnings : Bool
  logit : Bool
  random_state : RandomState

/-- Configuration a worker carries (the private fields saved by `__init__`
that `__process_references` reads), together with the fasta lookup
(`Fasta(self.__fasta_fn)[ref_id]`, `none` modelling a missing reference) and
an oracle standing for the comparator's per-position annotations. -/
structure Config where
  samples : List (String × List String)
  fasta : String → Option String
  comparison_methods : List String
  sequence_context : Nat
  sequence_context_weights : String
  min_coverage : Nat
  allow_warnings : Bool
  logit : Bool
  nthreads : Nat
  txOracle : ComparatorArgs → PosDict → Option (List String)

/-- Modelled from the spec: the external comparator `txCompare`
(nanocompore.TxComp, not under src/) "receive[s] back the same table
annotated with named result fields per position" (spec 4.2 step 7): it
returns the input table with each position record annotated through the
oracle and nothing else changed. -/
def txCompare (oracle : ComparatorArgs → PosDict → Option (List String)) (args : ComparatorArgs) : List PosDict :=
  args.ref_pos_list.map (fun pd => { pd with txComp := oracle args pd })

/-- The per-task ingestion of `__process_references` (lines 272-331): fasta
lookup, table creation, and the condition/sample/read loops. -/
def ingestAll (cfg : Config) (item : String × RefDict) : Except Err (List PosDict) :=
  match cfg.fasta item.1 with
  | none => .error keyErrPy
  | some seq => foldConds cfg.samples item.2 (makeRefPosList seq cfg.samples)

/-- One full task of `__process_references` (lines 272-349): ingestion
followed, when comparison methods are configured, by the comparator call with
a fresh `RandomState(seed=42)` (lines 334-345); the comparator argument
record actually passed is returned alongside the table. -/
def processItem (cfg : Config) (item : String × RefDict) : Except Err (List PosDict × Option ComparatorArgs) :=
  match ingestAll cfg item with
  | .error e => .error e
  | .ok tbl =>
    if cfg.comparison_methods = [] then .ok (tbl, none)
    else
      let args : ComparatorArgs :=
        { ref_id := item.1, ref_pos_list := tbl, methods := cfg.comparison_methods,
          sequence_context := cfg.sequence_context,
          sequence_context_weights := cfg.sequence_context_weights,
          min_coverage := cfg.min_coverage, allow_warnings := cfg.allow_warnings,
          logit := cfg.logit, random_state := { seed := 42 } }
      .ok (txCompare cfg.txOracle args, some args)

/-- One worker process body (`__process_references`, lines 261-363): the
items it ends up consuming from the input queue, in order, mapped to its
output-queue emissions and its (optional) error report.  On normal completion
it emits one poison pill (line 353); a worker that crashes mid-task emits
`self.__nthreads` poison pills (lines 360-361) before reporting the traceback
on the error queue (line 363). -/
def workerRun (cfg : Config) : List (String × RefDict) → List (Option (String × List PosDict)) × Option Err
  | [] => ([none], none)
  | it :: rest =>
    match processItem cfg it with
    | .ok (tbl, _) =>
      let out := workerRun cfg rest
      (some (it.1, tbl) :: out.1, out.2)
    | .error e => (List.replicate cfg.nthreads none, some e)

/-- The dispatcher `__list_refid` (lines 242-259): the whitelist items it
managed to iterate are put on the input queue; whether iteration completed or
raised, exactly `self.__nthreads` poison pills follow (lines 251-252 and
257-258), and a raised iteration additionally reports the traceback on the
error queue. -/
def dispatcherRun (cfg : Config) (produced : List (String × RefDict)) (iterFail : Option Err) : List (Option (String × RefDict)) × Option Err :=
  (produced.map some ++ List.replicate cfg.nthreads none, iterFail)

/-- Number of poison pills in a queue trace. -/
def countNone (l : List (Option α)) : Nat :=
  l.countP (fun x => x.isNone)

/-- One sentinel-delimited subsequence consumed by `iter(out_q.get, None)`
(line 374): the items before the first pill, and the remaining queue after
that pill. -/
def takeGroup : List (Option α) → List α × List (Option α)
  | [] => ([], [])
  | none :: rest => ([], rest)
  | some x :: rest =>
    let g := takeGroup rest
    (x :: g.1, g.2)

/-- The writer's drain loop (`__write_output`, lines 373-374): `T`
sentinel-delimited subsequences are consumed from the result queue. -/
def writerDrain : Nat → List (Option α) → List α × List (Option α)
  | 0, q => ([], q)
  | t + 1, q =>
    let g := takeGroup q
    let r := writerDrain t g.2
    (g.1 ++ r.1, r.2)

/-- The error-queue content the supervisor observes, with each worker's
traceback report (line 363) arriving before the writer's success marker
(line 403): the worker puts its report right after its pills, while the
writer first has to drain all its sentinel groups, write the metadata and
close the store. -/
def errQueue (cfg : Config) (assignment : List (List (String × RefDict))) : List Err :=
  (assignment.map (fun its => (workerRun cfg its).2)).filterMap (fun x => x)

/-- The supervisor loop of `__call__` (lines 211-223) over a run in which the
input-queue items end up distributed to the workers as `assignment`: the
first traceback on the error queue is re-raised as a NanocomporeError
(lines 216-218); only when the writer's success marker arrives first does the
call return the writer's collected output (the persisted store). -/
def runPipeline (cfg : Config) (assignment : List (List (String × RefDict))) : Except Err (List (String × List PosDict)) :=
  match errQueue cfg assignment with
  | e :: _ => .error e
  | [] => .ok (writerDrain cfg.nthreads (assignment.flatMap (fun its => (workerRun cfg its).1))).1

/-- The `comparison_methods` argument of `__init__`: `None`, a comma
separated string, or a list (its Python truthiness decides whether the
methods are parsed at all, line 138). -/
inductive MethodsArg where
  | noneArg : MethodsArg
  | strArg : String → MethodsArg
  | listArg : List String → MethodsArg

def methodsTruthy : MethodsArg → Bool
  | .noneArg => false
  | .strArg s => s ≠ ""
  | .listArg l => l ≠ []

/-- Comma-splitting of a string argument (line 140); a list argument is used
as is, a falsy argument contributes no methods. -/
def methodsToList : MethodsArg → List String
  | .noneArg => []
  | .strArg s => if s = "" then [] else s.splitOn ","
  | .listArg l => l

/-- The per-method normalisation of lines 141-152: upper-case the name, map
it to its canonical short form, or raise for an unknown method. -/
def methodCanon (m : String) : Except Err String :=
  let u := m.toUpper
  if u = "MANN_WHITNEY" ∨ u = "MW" then .ok "MW"
  else if u = "KOLMOGOROV_SMIRNOV" ∨ u = "KS" then .ok "KS"
  else if u = "T_TEST" ∨ u = "TT" then .ok "TT"
  else if u = "GAUSSIAN_MIXTURE_MODEL" ∨ u = "GMM" then .ok "GMM"
  else .error ("Invalid comparison method " ++ u)

/-- `True` when lines 143-152 would reject the method name. -/
def invalidMethod (m : String) : Bool :=
  match methodCanon m with
  | .error _ => true
  | .ok _ => false

def parseOneByOne : List String → Except Err (List String)
  | [] => .ok []
  | m :: rest =>
    match methodCanon m with
    | .error e => .error e
    | .ok m' =>
      match parseOneByOne rest with
      | .error e => .error e
      | .ok rest' => .ok (m' :: rest')

/-- Lines 138-152: a truthy `comparison_methods` is split and normalised
entry by entry; a falsy one is kept falsy (stored here as `[]`). -/
def parseMethods (a : MethodsArg) : Except Err (List String) :=
  if methodsTruthy a then parseOneByOne (methodsToList a) else .ok []

/-- The label/file loop of `__check_eventalign_fn_dict` (lines 422-434) over
the flattened (label, filename) pairs: unreadable or duplicated files raise,
duplicated replicate labels set the relabelling flag. -/
def checkPairs (access : String → Bool) : List (String × String) → List String → List String → Bool → Except Err Bool
  | [], _, _, dup => .ok dup
  | (lab, fn) :: rest, labs, fns, dup =>
    if ¬ access fn then .error ("Cannot access eventalign file: " ++ fn)
    else if fns.contains fn then .error ("Duplicated eventalign file detected: " ++ fn)
    else checkPairs access rest (labs ++ [lab]) (fns ++ [fn]) (dup || labs.contains lab)

/-- Lines 439-446: on duplicated replicate labels, every label is prefixed
with its condition name. -/
def relabelDict (d : List (String × List (String × String))) : List (String × List (String × String)) :=
  d.map (fun cp => (cp.1, cp.2.map (fun sp => (cp.1 ++ "_" ++ sp.1, sp.2))))

/-- `__check_eventalign_fn_dict` (lines 411-446): exactly two conditions are
required, files must be accessible and distinct, and duplicated replicate
labels are resolved by condition-prefixing. -/
def checkEventalignFnDict (access : String → Bool) (d : List (String × List (String × String))) : Except Err (List (String × List (String × String))) :=
  if d.length ≠ 2 then .error "2 conditions are expected"
  else
    match checkPairs access (d.flatMap (fun cp => cp.2)) [] [] false with
    | .error e => .error e
    | .ok true => .ok (relabelDict d)
    | .ok false => .ok d

/-- The `__init__` arguments that take part in the embedded checks. -/
structure InitArgs where
  eventalign_fn_dict : List (String × List (String × String))
  fasta_fn : String
  bed_fn : Option String
  comparison_methods : MethodsArg
  nthreads : Nat

/-- The private state `__init__` saves on success (the fields the embedded
pipeline reads). -/
structure InitState where
  eventalign_fn_dict : List (String × List (String × String))
  comparison_methods : List String
  nthreadsWorkers : Nat
  n_samples : Nat

/-- `SampComp.__init__` (lines 110-191) restricted to its synchronous checks,
in source order: the two-condition/file checks of
`__check_eventalign_fn_dict` (line 124), the fasta and bed accessibility
checks (lines 128-131), the minimum thread count (lines 134-135) and the
comparison-method parsing (lines 138-152).  No queue or process exists yet:
those are only created by `__call__`.  The construction of the external
Whitelist (not under src/) follows these checks and is outside the model. -/
def sampCompInit (access : String → Bool) (a : InitArgs) : Except Err InitState :=
  match checkEventalignFnDict access a.eventalign_fn_dict with
  | .error e => .error e
  | .ok d =>
    if ¬ access a.fasta_fn then .error (a.fasta_fn ++ " is not a valid FASTA file")
    else if (match a.bed_fn with | some b => ! access b | none => false) then
      .error "is not a valid BED file"
    else if a.nthreads < 3 then .error "The minimum number of threads is 3"
    else
      match parseMethods a.comparison_methods with
      | .error e => .error e
      | .ok ms =>
        .ok { eventalign_fn_dict := d, comparison_methods := ms,
              nthreadsWorkers := a.nthreads - 2,
              n_samples := (d.map (fun cp => cp.2.length)).sum }

/-- Number of data rows naming position `q` across a list of reads. -/
def rowsAtPos (q : Nat) : List ReadEntry → Nat
  | [] => 0
  | e :: rest => e.chunk.rows.countP (fun r => decide (r.ref_pos = q)) + rowsAtPos q rest

/-- The reads listed under sample label `s` in one sample dict. -/
def sdictReads (s : String) : List (String × List ReadEntry) → List ReadEntry
  | [] => []
  | (s0, es) :: rest => (if s0 = s then es else []) ++ sdictReads s rest

/-- The reads a reference descriptor lists under condition `c`, sample `s`. -/
def readsFor (c s : String) : RefDict → List ReadEntry
  | [] => []
  | (c0, sd) :: rest => (if c0 = c then sdictReads s sd else []) ++ readsFor c s rest

/-- Componentwise increment of a (|intensity|, |dwell|, coverage) triple. -/
def addN (n : Nat) (v : Nat × Nat × Nat) : Nat × Nat × Nat :=
  (v.1 + n, v.2.1 + n, v.2.2 + n)

/-- Two tables agree on everything the kmers_stats updates leave alone:
length, stored k-mers, and the intensity/dwell/coverage part of every
cell. -/
def dataAgrees (t t' : List PosDict) : Prop :=
  t'.length = t.length ∧
  (∀ q : Nat, (t'[q]?).map PosDict.ref_kmer = (t[q]?).map PosDict.ref_kmer) ∧
  (∀ (q : Nat) (c s : String),
      (slotData t' q c s).map (fun sd => (sd.intensity, sd.dwell, sd.coverage)) =
      (slotData t q c s).map (fun sd => (sd.intensity, sd.dwell, sd.coverage)))

/-- Projection used to force kernel evaluation of a concrete worker result. -/
def tblOf (e : Except Err (List PosDict)) : Option (List PosDict) :=
  match e with
  | .ok t => some t
  | .error _ => none

def covOf (e : Except Err (List PosDict)) (q : Nat) (c s : String) : Option (Nat × Nat × Nat) :=
  match e with
  | .ok t => covLen t q c s
  | .error _ => none

def argsOf (e : Except Err (List PosDict × Option ComparatorArgs)) : Option ComparatorArgs :=
  match e with
  | .ok p => p.2
  | .error _ => none

/- Concrete instances used by the witness and counterexample theorems. -/

def sampW : List (String × List String) := [("C1", ["S1"]), ("C2", ["S2"])]

def seqW : String := "ACGTACG"

def fastaW : String → Option String :=
  fun r => if r = "tx1" then some seqW else if r = "tx2" then some "AAAAAAAA" else none

def txOracleW : ComparatorArgs → PosDict → Option (List String) := fun _ _ => none

def cfgW : Config :=
  { samples := sampW, fasta := fastaW, comparison_methods := ["GMM", "KS"],
    sequence_context := 0, sequence_context_weights := "uniform", min_coverage := 30,
    allow_warnings := false, logit := false, nthreads := 1, txOracle := txOracleW }

def cfg2W : Config := { cfgW with nthreads := 2 }

def cfgMissW : Config := { cfg2W with fasta := fun _ => none }

def colsBasic : List String := ["ref_pos", "ref_kmer", "median", "dwell_time"]

def colsExt : List String := colsBasic ++ ["NNNNN_dwell_time", "mismatch_dwell_time"]

def rowW (p : Nat) (k : String) : Row :=
  { ref_pos := p, ref_kmer := k, median := 10, dwell_time := 1,
    nnnnn_dwell_time := 0, mismatch_dwell_time := 0 }

def entryW : ReadEntry :=
  { read_id := "r1", ref_id := "tx1",
    chunk := { header_read_id := "r1", header_ref_id := "tx1",
               col_names := colsBasic, rows := [rowW 0 "ACGTA", rowW 1 "CGTAC"] } }

def refDictW : RefDict := [("C1", [("S1", [entryW])]), ("C2", [("S2", [])])]

def entryBadW : ReadEntry :=
  { read_id := "r1", ref_id := "tx1",
    chunk := { header_read_id := "rX", header_ref_id := "tx1",
               col_names := colsBasic, rows := [] } }

def refDictBadW : RefDict := [("C1", [("S1", [entryBadW])]), ("C2", [("S2", [])])]

def assignBadW : List (List (String × RefDict)) := [[("tx1", refDictBadW)]]

def tblC2 : List PosDict := makeRefPosList "AAAAAAAA" sampW

def entryGap02 : ReadEntry :=
  { read_id := "r2", ref_id := "tx2",
    chunk := { header_read_id := "r2", header_ref_id := "tx2",
               col_names := colsExt, rows := [rowW 0 "AAAAA", rowW 2 "AAAAA"] } }

def entryGap13 : ReadEntry :=
  { read_id := "r3", ref_id := "tx2",
    chunk := { header_read_id := "r3", header_ref_id := "tx2",
               col_names := colsExt, rows := [rowW 1 "AAAAA", rowW 3 "AAAAA"] } }

def rowDw0 : Row := { rowW 0 "AAAAA" with dwell_time := 0 }

def rowMisW : Row := rowW 0 "CCCCC"

def accW : String → Bool := fun _ => true

def dictW : List (String × List (String × String)) :=
  [("C1", [("S1", "f1.tsv")]), ("C2", [("S2", "f2.tsv")])]

def initArgsBadW : InitArgs :=
  { eventalign_fn_dict := dictW, fasta_fn := "ref.fa", bed_fn := none,
    comparison_methods := MethodsArg.listArg ["GMM"], nthreads := 2 }

def pdW : PosDict :=
  { ref_kmer := "AAAAA",
    data := sampW.map (fun cp => (cp.1, cp.2.map (fun s2 => (s2, emptySampleData)))),
    txComp := none }
/- Association-list lemmas. -/

theorem alookup_cons_self {β : Type _} {k : String} {v : β} {t : List (String × β)} :
    alookup k ((k, v) :: t) = some v := by
  simp [alookup]

theorem alookup_cons_ne {β : Type _} {k k' : String} (h : k' ≠ k) {v : β} {t : List (String × β)} :
    alookup k ((k', v) :: t) = alookup k t := by
  simp [alookup, h]

theorem aupdateO_cons_self {β : Type _} {k : String} {f : β → Option β} {v : β} {t : List (String × β)} :
    aupdateO k f ((k, v) :: t) = (f v).map (fun v' => (k, v') :: t) := by
  simp [aupdateO]

theorem aupdateO_cons_ne {β : Type _} {k k' : String} (h : k' ≠ k) {f : β → Option β} {v : β} {t : List (String × β)} :
    aupdateO k f ((k', v) :: t) = (aupdateO k f t).map (fun t' => (k', v) :: t') := by
  simp [aupdateO, h]

theorem aupdateO_some_spec {β : Type _} {k : String} {f : β → Option β} {l l' : List (String × β)}
    (h : aupdateO k f l = some l') :
    ∃ v w, alookup k l = some v ∧ f v = some w ∧ alookup k l' = some w := by
  induction l generalizing l' with
  | nil => simp [aupdateO] at h
  | cons p t ih =>
    obtain ⟨k', v⟩ := p
    by_cases hk : k' = k
    · subst hk
      rw [aupdateO_cons_self] at h
      cases hf : f v with
      | none => rw [hf] at h; simp at h
      | some w =>
        rw [hf] at h
        simp only [Option.map_some', Option.some_inj] at h
        subst h
        exact ⟨v, w, alookup_cons_self, hf, alookup_cons_self⟩
    · rw [aupdateO_cons_ne hk] at h
      cases hu : aupdateO k f t with
      | none => rw [hu] at h; simp at h
      | some t' =>
        rw [hu] at h
        simp only [Option.map_some', Option.some_inj] at h
        subst h
        obtain ⟨v', w', h1, h2, h3⟩ := ih hu
        exact ⟨v', w', by rw [alookup_cons_ne hk, h1],
               h2, by rw [alookup_cons_ne hk, h3]⟩

theorem alookup_aupdateO_ne {β : Type _} {k k2 : String} (hne : k2 ≠ k) {f : β → Option β}
    {l l' : List (String × β)} (h : aupdateO k f l = some l') :
    alookup k2 l' = alookup k2 l := by
  induction l generalizing l' with
  | nil => simp [aupdateO] at h
  | cons p t ih =>
    obtain ⟨k', v⟩ := p
    by_cases hk : k' = k
    · subst hk
      rw [aupdateO_cons_self] at h
      cases hf : f v with
      | none => rw [hf] at h; simp at h
      | some w =>
        rw [hf] at h
        simp only [Option.map_some', Option.some_inj] at h
        subst h
        by_cases hk2 : k' = k2
        · exact absurd hk2.symm hne
        · rw [alookup_cons_ne hk2, alookup_cons_ne hk2]
    · rw [aupdateO_cons_ne hk] at h
      cases hu : aupdateO k f t with
      | none => rw [hu] at h; simp at h
      | some t' =>
        rw [hu] at h
        simp only [Option.map_some', Option.some_inj] at h
        subst h
        by_cases hk2 : k' = k2
        · subst hk2
          rw [alookup_cons_self, alookup_cons_self]
        · rw [alookup_cons_ne hk2, alookup_cons_ne hk2, ih hu]

theorem aupdateO_some_of_alookup {β : Type _} {k : String} {f : β → Option β}
    {l : List (String × β)} {v w : β}
    (hl : alookup k l = some v) (hf : f v = some w) :
    ∃ l', aupdateO k f l = some l' := by
  induction l with
  | nil => simp [alookup] at hl
  | cons p t ih =>
    obtain ⟨k', v'⟩ := p
    by_cases hk : k' = k
    · subst hk
      rw [alookup_cons_self, Option.some_inj] at hl
      subst hl
      exact ⟨(k', w) :: t, by rw [aupdateO_cons_self, hf]; rfl⟩
    · rw [alookup_cons_ne hk] at hl
      obtain ⟨t', ht'⟩ := ih hl
      exact ⟨(k', v') :: t', by rw [aupdateO_cons_ne hk, ht']; rfl⟩

/- Cell-update lemmas. -/

theorem updateSlot_spec {pos : Nat} {c s : String} {f : SampleData → SampleData}
    {tbl t' : List PosDict} (h : updateSlot pos c s f tbl = some t') :
    ∃ pd d', tbl[pos]? = some pd ∧
      aupdateO c (aupdateO s (fun sd => some (f sd))) pd.data = some d' ∧
      t' = tbl.set pos { pd with data := d' } := by
  unfold updateSlot at h
  split at h
  · simp at h
  · rename_i pd hp
    split at h
    · simp at h
    · rename_i d' hu
      simp only [Option.some_inj] at h
      exact ⟨pd, d', hp, hu, h.symm⟩

theorem updateSlot_length {pos : Nat} {c s : String} {f : SampleData → SampleData}
    {tbl t' : List PosDict} (h : updateSlot pos c s f tbl = some t') :
    t'.length = tbl.length := by
  obtain ⟨pd, d', hp, hu, rfl⟩ := updateSlot_spec h
  simp

theorem updateSlot_kmer {pos : Nat} {c s : String} {f : SampleData → SampleData}
    {tbl t' : List PosDict} (h : updateSlot pos c s f tbl = some t') (q : Nat) :
    (t'[q]?).map PosDict.ref_kmer = (tbl[q]?).map PosDict.ref_kmer := by
  obtain ⟨pd, d', hp, hu, rfl⟩ := updateSlot_spec h
  by_cases hq : q = pos
  · subst hq
    have hlt : q < tbl.length := (List.getElem?_eq_some_iff.mp hp).1
    rw [List.getElem?_set_self hlt, hp]
    rfl
  · rw [List.getElem?_set_ne (fun he => hq he.symm)]

theorem updateSlot_slotData {pos : Nat} {c s : String} {f : SampleData → SampleData}
    {tbl t' : List PosDict} (h : updateSlot pos c s f tbl = some t') (q : Nat) (c' s' : String) :
    slotData t' q c' s' =
      if q = pos ∧ c' = c ∧ s' = s then (slotData tbl q c' s').map f
      else slotData tbl q c' s' := by
  obtain ⟨pd, d', hp, hu, rfl⟩ := updateSlot_spec h
  by_cases hq : q = pos
  · subst hq
    have hlt : q < tbl.length := (List.getElem?_eq_some_iff.mp hp).1
    obtain ⟨sdict, d2, hcd, hF, hclk⟩ := aupdateO_some_spec hu
    by_cases hc : c' = c
    · subst hc
      obtain ⟨sd, w, hsd, hgsd, hslk⟩ := aupdateO_some_spec hF
      simp only [Option.some_inj] at hgsd
      subst hgsd
      by_cases hs : s' = s
      · subst hs
        rw [if_pos ⟨rfl, rfl, rfl⟩]
        simp only [slotData, List.getElem?_set_self hlt, hp, hcd, hclk,
          Option.some_bind, hsd, hslk, Option.map_some']
      · rw [if_neg (fun hcon => hs hcon.2.2)]
        simp only [slotData, List.getElem?_set_self hlt, hp, hcd, hclk, Option.some_bind]
        exact alookup_aupdateO_ne hs hF
    · rw [if_neg (fun hcon => hc hcon.2.1)]
      simp only [slotData, List.getElem?_set_self hlt, hp]
      rw [alookup_aupdateO_ne hc hu]
  · rw [if_neg (fun hcon => hq hcon.1)]
    simp only [slotData, List.getElem?_set_ne (fun he => hq he.symm)]

theorem updateSlot_exists {pos : Nat} {c s : String} (f : SampleData → SampleData)
    {tbl : List PosDict} (h : (slotData tbl pos c s).isSome = true) :
    ∃ t', updateSlot pos c s f tbl = some t' := by
  unfold slotData at h
  split at h
  · simp at h
  · rename_i pd hp
    cases hcd : alookup c pd.data with
    | none => rw [hcd] at h; simp at h
    | some sdict =>
      rw [hcd] at h
      simp only [Option.some_bind] at h
      cases hsd : alookup s sdict with
      | none => rw [hsd] at h; simp at h
      | some sd =>
        obtain ⟨d2, hd2⟩ :=
          @aupdateO_some_of_alookup _ s (fun sd0 => some (f sd0)) sdict sd (f sd) hsd rfl
        obtain ⟨d', hd'⟩ := aupdateO_some_of_alookup hcd hd2
        refine ⟨tbl.set pos { pd with data := d' }, ?_⟩
        simp only [updateSlot, hp, hd']

/- The k-mer annotation stage (line 310) leaves the data cells alone. -/

theorem set_kmer_slotData {tbl : List PosDict} {pos : Nat} {pd : PosDict}
    (hp : tbl[pos]? = some pd) (x : String) (q : Nat) (c s : String) :
    slotData (tbl.set pos { pd with ref_kmer := x }) q c s = slotData tbl q c s := by
  unfold slotData
  by_cases hq : q = pos
  · subst hq
    have hlt : q < tbl.length := (List.getElem?_eq_some_iff.mp hp).1
    rw [List.getElem?_set_self hlt, hp]
  · rw [List.getElem?_set_ne (fun he => hq he.symm)]

theorem set_kmer_kmer_self {tbl : List PosDict} {pos : Nat} {pd : PosDict}
    (hp : tbl[pos]? = some pd) (x : String) :
    ((tbl.set pos { pd with ref_kmer := x })[pos]?).map PosDict.ref_kmer = some x := by
  have hlt : pos < tbl.length := (List.getElem?_eq_some_iff.mp hp).1
  rw [List.getElem?_set_self hlt]
  rfl

theorem set_kmer_kmer_ne {tbl : List PosDict} {pos : Nat} {pd : PosDict} (q : Nat)
    (hq : q ≠ pos) (x : String) :
    ((tbl.set pos { pd with ref_kmer := x })[q]?).map PosDict.ref_kmer = (tbl[q]?).map PosDict.ref_kmer := by
  rw [List.getElem?_set_ne (fun he => hq he.symm)]

/- Agreement of tables up to kmers_stats changes. -/

theorem dataAgrees_refl (t : List PosDict) : dataAgrees t t :=
  ⟨rfl, fun _ => rfl, fun _ _ _ => rfl⟩

theorem dataAgrees_trans {a b c : List PosDict} (h1 : dataAgrees a b) (h2 : dataAgrees b c) :
    dataAgrees a c :=
  ⟨h2.1.trans h1.1, fun q => (h2.2.1 q).trans (h1.2.1 q),
   fun q c' s' => (h2.2.2 q c' s').trans (h1.2.2 q c' s')⟩

theorem dataAgrees_isSome {a b : List PosDict} (h : dataAgrees a b) (q : Nat) (c s : String) :
    (slotData b q c s).isSome = (slotData a q c s).isSome := by
  have h3 := congrArg Option.isSome (h.2.2 q c s)
  simp only [Option.isSome_map'] at h3
  exact h3

theorem dataAgrees_covLen {a b : List PosDict} (h : dataAgrees a b) (q : Nat) (c s : String) :
    covLen b q c s = covLen a q c s := by
  unfold covLen
  have h3 := congrArg
    (Option.map (fun v : List ℚ × List ℚ × Nat => (v.1.length, v.2.1.length, v.2.2)))
    (h.2.2 q c s)
  simp only [Option.map_map] at h3
  exact h3

theorem updateSlot_agrees {pos : Nat} {c s : String} {f : SampleData → SampleData}
    {tbl t' : List PosDict} (h : updateSlot pos c s f tbl = some t')
    (hpres : ∀ sd, ((f sd).intensity, (f sd).dwell, (f sd).coverage) =
                   (sd.intensity, sd.dwell, sd.coverage)) : dataAgrees tbl t' := by
  refine ⟨updateSlot_length h, updateSlot_kmer h, ?_⟩
  intro q c' s'
  rw [updateSlot_slotData h q c' s']
  by_cases hcon : q = pos ∧ c' = c ∧ s' = s
  · rw [if_pos hcon]
    cases ho : slotData tbl q c' s' with
    | none => rfl
    | some sd =>
      simp only [Option.map_some']
      exact congrArg some (hpres sd)
  · rw [if_neg hcon]

theorem fillList_agrees {c s : String} {ps : List Nat} :
    ∀ {tbl t' : List PosDict}, fillList c s tbl ps = .ok t' → dataAgrees tbl t' := by
  induction ps with
  | nil =>
    intro tbl t' h
    simp only [fillList] at h
    cases h
    exact dataAgrees_refl _
  | cons p ps ih =>
    intro tbl t' h
    unfold fillList at h
    split at h
    · cases h
    · rename_i t1 ht1
      exact dataAgrees_trans (updateSlot_agrees ht1 (fun sd => rfl)) (ih h)

theorem fillList_ok {c s : String} {ps : List Nat} :
    ∀ {tbl : List PosDict}, (∀ p ∈ ps, (slotData tbl p c s).isSome = true) →
      ∃ t', fillList c s tbl ps = .ok t' := by
  induction ps with
  | nil => intro tbl _; exact ⟨tbl, rfl⟩
  | cons p ps ih =>
    intro tbl hps
    obtain ⟨t1, ht1⟩ := updateSlot_exists incMissing (hps p (List.mem_cons_self p ps))
    have hag1 : dataAgrees tbl t1 := updateSlot_agrees ht1 (fun sd => rfl)
    have hps1 : ∀ p' ∈ ps, (slotData t1 p' c s).isSome = true := by
      intro p' hp'
      rw [dataAgrees_isSome hag1 p' c s]
      exact hps p' (List.mem_cons_of_mem p hp')
    obtain ⟨t', ht'⟩ := ih hps1
    refine ⟨t', ?_⟩
    unfold fillList
    rw [ht1]
    exact ht'

/- Success-shape of one row ingestion. -/

theorem ingestRow_ok_shape {c s : String} {ks : Bool} {tbl : List PosDict} {prev : Option Nat}
    {row : Row} {tbl' : List PosDict} {prev' : Option Nat}
    (h : ingestRow c s ks (tbl, prev) row = .ok (tbl', prev')) :
    ∃ pd tbl2, tbl[row.ref_pos]? = some pd ∧
      updateSlot row.ref_pos c s (appendRowData row)
        (tbl.set row.ref_pos { pd with ref_kmer := updateKmer pd.ref_kmer row.ref_kmer }) = some tbl2 ∧
      dataAgrees tbl2 tbl' := by
  simp only [ingestRow] at h
  split at h
  · cases h
  · rename_i pd hp
    split at h
    · cases h
    · rename_i tbl2 hu2
      refine ⟨pd, tbl2, hp, hu2, ?_⟩
      split at h
      · split at h
        · cases h
        · rename_i tbl3 hfill
          have hag23 : dataAgrees tbl2 tbl3 := by
            split at hfill
            · exact fillList_agrees hfill
            · cases hfill
              exact dataAgrees_refl _
          split at h
          · rename_i nv nn nm hnv hnn hnm
            split at h
            · cases h
            · rename_i tbl4 hu4
              injection h with h2
              injection h2 with h3 h4
              subst h3
              exact dataAgrees_trans hag23 (updateSlot_agrees hu4 (fun sd => rfl))
          · cases h
          · cases h
          · cases h
      · injection h with h2
        injection h2 with h3 h4
        subst h3
        exact dataAgrees_refl _

theorem ingestRow_ok_destruct {c s : String} {ks : Bool} {tbl : List PosDict} {prev : Option Nat}
    {row : Row} {tbl' : List PosDict} {prev' : Option Nat}
    (h : ingestRow c s ks (tbl, prev) row = .ok (tbl', prev')) :
    tbl'.length = tbl.length ∧
    (∀ q : Nat, q ≠ row.ref_pos →
      (tbl'[q]?).map PosDict.ref_kmer = (tbl[q]?).map PosDict.ref_kmer) ∧
    ((tbl'[row.ref_pos]?).map PosDict.ref_kmer =
      (tbl[row.ref_pos]?).map (fun pd => updateKmer pd.ref_kmer row.ref_kmer)) ∧
    (∀ (q : Nat) (c' s' : String), covLen tbl' q c' s' =
      (covLen tbl q c' s').map (addN (if q = row.ref_pos ∧ c' = c ∧ s' = s then 1 else 0))) ∧
    ((slotData tbl' row.ref_pos c s).map (fun sd => sd.intensity) =
      (slotData tbl row.ref_pos c s).map (fun sd => sd.intensity ++ [row.median])) ∧
    ((slotData tbl' row.ref_pos c s).map (fun sd => sd.dwell) =
      (slotData tbl row.ref_pos c s).map (fun sd => sd.dwell ++ [row.dwell_time])) ∧
    ((slotData tbl' row.ref_pos c s).map (fun sd => sd.coverage) =
      (slotData tbl row.ref_pos c s).map (fun sd => sd.coverage + 1)) := by
  obtain ⟨pd, tbl2, hp, hu2, hag⟩ := ingestRow_ok_shape h
  have hlt : row.ref_pos < tbl.length := (List.getElem?_eq_some_iff.mp hp).1
  have hlen1 : (tbl.set row.ref_pos { pd with ref_kmer := updateKmer pd.ref_kmer row.ref_kmer }).length = tbl.length := by
    simp
  refine ⟨hag.1.trans ((updateSlot_length hu2).trans hlen1), ?_, ?_, ?_, ?_, ?_, ?_⟩
  · intro q hq
    rw [hag.2.1 q, updateSlot_kmer hu2 q, set_kmer_kmer_ne q hq]
  · rw [hag.2.1 row.ref_pos, updateSlot_kmer hu2 row.ref_pos, set_kmer_kmer_self hp, hp]
    rfl
  · intro q c' s'
    rw [dataAgrees_covLen hag q c' s']
    unfold covLen
    rw [updateSlot_slotData hu2 q c' s']
    simp only [set_kmer_slotData hp]
    by_cases hcon : q = row.ref_pos ∧ c' = c ∧ s' = s
    · rw [if_pos hcon, if_pos hcon]
      cases ho : slotData tbl q c' s' with
      | none => rfl
      | some sd => simp [appendRowData, addN]
    · rw [if_neg hcon, if_neg hcon]
      cases ho : slotData tbl q c' s' with
      | none => rfl
      | some sd => simp [addN]
  · have hI := congrArg (Option.map (fun v : List ℚ × List ℚ × Nat => v.1))
      (hag.2.2 row.ref_pos c s)
    simp only [Option.map_map] at hI
    have hI2 : (slotData tbl' row.ref_pos c s).map (fun sd => sd.intensity) =
        (slotData tbl2 row.ref_pos c s).map (fun sd => sd.intensity) := hI
    rw [hI2, updateSlot_slotData hu2 row.ref_pos c s, if_pos ⟨rfl, rfl, rfl⟩,
      set_kmer_slotData hp]
    cases ho : slotData tbl row.ref_pos c s with
    | none => rfl
    | some sd => simp [appendRowData]
  · have hD := congrArg (Option.map (fun v : List ℚ × List ℚ × Nat => v.2.1))
      (hag.2.2 row.ref_pos c s)
    simp only [Option.map_map] at hD
    have hD2 : (slotData tbl' row.ref_pos c s).map (fun sd => sd.dwell) =
        (slotData tbl2 row.ref_pos c s).map (fun sd => sd.dwell) := hD
    rw [hD2, updateSlot_slotData hu2 row.ref_pos c s, if_pos ⟨rfl, rfl, rfl⟩,
      set_kmer_slotData hp]
    cases ho : slotData tbl row.ref_pos c s with
    | none => rfl
    | some sd => simp [appendRowData]
  · have hC := congrArg (Option.map (fun v : List ℚ × List ℚ × Nat => v.2.2))
      (hag.2.2 row.ref_pos c s)
    simp only [Option.map_map] at hC
    have hC2 : (slotData tbl' row.ref_pos c s).map (fun sd => sd.coverage) =
        (slotData tbl2 row.ref_pos c s).map (fun sd => sd.coverage) := hC
    rw [hC2, updateSlot_slotData hu2 row.ref_pos c s, if_pos ⟨rfl, rfl, rfl⟩,
      set_kmer_slotData hp]
    cases ho : slotData tbl row.ref_pos c s with
    | none => rfl
    | some sd => simp [appendRowData]

theorem ingestRow_ok_exists {c s : String} {ks : Bool} {tbl : List PosDict} {prev : Option Nat}
    {row : Row}
    (hpos : row.ref_pos < tbl.length)
    (hslots : ∀ p : Nat, p < tbl.length → (slotData tbl p c s).isSome = true)
    (hdw : ks = true → ¬ row.dwell_time = 0) :
    ∃ out, ingestRow c s ks (tbl, prev) row = .ok out := by
  cases hp : tbl[row.ref_pos]? with
  | none =>
    rw [List.getElem?_eq_none_iff] at hp
    omega
  | some pd =>
    have hslots1 : ∀ p : Nat, p < tbl.length →
        (slotData (tbl.set row.ref_pos { pd with ref_kmer := updateKmer pd.ref_kmer row.ref_kmer }) p c s).isSome = true := by
      intro p hplt
      simp only [set_kmer_slotData hp]
      exact hslots p hplt
    obtain ⟨tbl2, hu2⟩ := updateSlot_exists (appendRowData row) (hslots1 row.ref_pos hpos)
    have hslots2 : ∀ p : Nat, p < tbl.length → (slotData tbl2 p c s).isSome = true := by
      intro p hplt
      rw [updateSlot_slotData hu2 p c s]
      by_cases hcon : p = row.ref_pos ∧ c = c ∧ s = s
      · rw [if_pos hcon, Option.isSome_map']
        exact hslots1 p hplt
      · rw [if_neg hcon]
        exact hslots1 p hplt
    cases ks with
    | false =>
      refine ⟨(tbl2, prev), ?_⟩
      simp only [ingestRow, hp, hu2]
      rw [if_neg Bool.false_ne_true]
    | true =>
      obtain ⟨tbl3, hfill3, hslots3⟩ :
          ∃ t3, (if pyTruthy prev ∧ row.ref_pos - prev.getD 0 > 1 then
                   fillList c s tbl2 (List.range' (prev.getD 0 + 1) (row.ref_pos - (prev.getD 0 + 1)))
                 else .ok tbl2) = .ok t3 ∧
                (slotData t3 row.ref_pos c s).isSome = true := by
        by_cases hgap : pyTruthy prev ∧ row.ref_pos - prev.getD 0 > 1
        · rw [if_pos hgap]
          have hmem : ∀ p ∈ List.range' (prev.getD 0 + 1) (row.ref_pos - (prev.getD 0 + 1)),
              (slotData tbl2 p c s).isSome = true := by
            intro p hpmem
            rw [List.mem_range'] at hpmem
            obtain ⟨i, hi, hpeq⟩ := hpmem
            have hplt : p < tbl.length := by omega
            exact hslots2 p hplt
          obtain ⟨t3, h3⟩ := fillList_ok hmem
          refine ⟨t3, h3, ?_⟩
          rw [dataAgrees_isSome (fillList_agrees h3)]
          exact hslots2 row.ref_pos hpos
        · rw [if_neg hgap]
          exact ⟨tbl2, rfl, hslots2 row.ref_pos hpos⟩
      have hdw' : ¬ row.dwell_time = 0 := hdw rfl
      have hnv : pydiv (row.dwell_time - (row.nnnnn_dwell_time + row.mismatch_dwell_time)) row.dwell_time =
          .ok ((row.dwell_time - (row.nnnnn_dwell_time + row.mismatch_dwell_time)) / row.dwell_time) := by
        unfold pydiv
        rw [if_neg hdw']
      have hnn : pydiv row.nnnnn_dwell_time row.dwell_time =
          .ok (row.nnnnn_dwell_time / row.dwell_time) := by
        unfold pydiv
        rw [if_neg hdw']
      have hnm : pydiv row.mismatch_dwell_time row.dwell_time =
          .ok (row.mismatch_dwell_time / row.dwell_time) := by
        unfold pydiv
        rw [if_neg hdw']
      obtain ⟨tbl4, hu4⟩ := updateSlot_exists
        (addKmerStats ((row.dwell_time - (row.nnnnn_dwell_time + row.mismatch_dwell_time)) / row.dwell_time)
          (row.nnnnn_dwell_time / row.dwell_time) (row.mismatch_dwell_time / row.dwell_time)) hslots3
      refine ⟨(tbl4, some row.ref_pos), ?_⟩
      simp only [ingestRow, hp, hu2, if_true]
      rw [hfill3, hnv, hnn, hnm]
      show (match updateSlot row.ref_pos c s
              (addKmerStats
                ((row.dwell_time - (row.nnnnn_dwell_time + row.mismatch_dwell_time)) / row.dwell_time)
                (row.nnnnn_dwell_time / row.dwell_time)
                (row.mismatch_dwell_time / row.dwell_time)) tbl3 with
            | none => Except.error keyErrPy
            | some tbl4 => Except.ok (tbl4, some row.ref_pos)) = Except.ok (tbl4, some row.ref_pos)
      rw [hu4]

/- Arithmetic on the (|intensity|, |dwell|, coverage) triples. -/

theorem map_addN_zero (o : Option (Nat × Nat × Nat)) : o.map (addN 0) = o := by
  cases o with
  | none => rfl
  | some v => simp [addN]

theorem map_addN_addN (k1 k2 : Nat) (o : Option (Nat × Nat × Nat)) :
    (o.map (addN k1)).map (addN k2) = o.map (addN (k1 + k2)) := by
  cases o with
  | none => rfl
  | some v => simp [addN, Nat.add_assoc]

/- Effect of the loops on the aggregate cells. -/

theorem foldRows_len_cov {c s : String} {ks : Bool} :
    ∀ (rows : List Row) (tbl : List PosDict) (prev : Option Nat) (tbl' : List PosDict)
      (prev' : Option Nat), foldRows c s ks (tbl, prev) rows = .ok (tbl', prev') →
      tbl'.length = tbl.length ∧
      ∀ (q : Nat) (c' s' : String), covLen tbl' q c' s' =
        (covLen tbl q c' s').map
          (addN (if c' = c ∧ s' = s then rows.countP (fun r => decide (r.ref_pos = q)) else 0)) := by
  intro rows
  induction rows with
  | nil =>
    intro tbl prev tbl' prev' h
    simp only [foldRows] at h
    injection h with h2
    injection h2 with h3 h4
    subst h3
    refine ⟨rfl, ?_⟩
    intro q c' s'
    simp only [List.countP_nil, ite_self, map_addN_zero]
  | cons r rest ih =>
    intro tbl prev tbl' prev' h
    simp only [foldRows] at h
    split at h
    · cases h
    · rename_i st heq
      obtain ⟨t1, p1⟩ := st
      obtain ⟨hlen1, _, _, hcov1, _⟩ := ingestRow_ok_destruct heq
      obtain ⟨hlen2, hcov2⟩ := ih t1 p1 tbl' prev' h
      refine ⟨hlen2.trans hlen1, ?_⟩
      intro q c' s'
      rw [hcov2 q c' s', hcov1 q c' s', map_addN_addN]
      have harith : (if q = r.ref_pos ∧ c' = c ∧ s' = s then 1 else 0) +
          (if c' = c ∧ s' = s then rest.countP (fun r2 => decide (r2.ref_pos = q)) else 0) =
          (if c' = c ∧ s' = s then (r :: rest).countP (fun r2 => decide (r2.ref_pos = q)) else 0) := by
        by_cases hcs : c' = c ∧ s' = s
        · rw [if_pos hcs, if_pos hcs]
          by_cases hq : q = r.ref_pos
          · subst hq
            have hcnt : List.countP (fun r2 => decide (r2.ref_pos = r.ref_pos)) (r :: rest) =
                List.countP (fun r2 => decide (r2.ref_pos = r.ref_pos)) rest + 1 := by
              simp [List.countP_cons]
            rw [if_pos ⟨rfl, hcs.1, hcs.2⟩, hcnt]
            omega
          · have hne : r.ref_pos ≠ q := fun he => hq he.symm
            have hcnt : List.countP (fun r2 => decide (r2.ref_pos = q)) (r :: rest) =
                List.countP (fun r2 => decide (r2.ref_pos = q)) rest := by
              simp [List.countP_cons, hne]
            rw [if_neg (fun hcon => hq hcon.1), hcnt]
            omega
        · rw [if_neg (fun hcon => hcs ⟨hcon.2.1, hcon.2.2⟩), if_neg hcs, if_neg hcs]
      rw [harith]

theorem processRead_len_cov {c s : String} {tbl : List PosDict} {entry : ReadEntry}
    {tbl' : List PosDict} (h : processRead c s tbl entry = .ok tbl') :
    tbl'.length = tbl.length ∧
    ∀ (q : Nat) (c' s' : String), covLen tbl' q c' s' =
      (covLen tbl q c' s').map
        (addN (if c' = c ∧ s' = s then
                 entry.chunk.rows.countP (fun r => decide (r.ref_pos = q)) else 0)) := by
  simp only [processRead] at h
  split at h
  · cases h
  · split at h
    · cases h
    · split at h
      · cases h
      · rename_i st heq
        injection h with h2
        obtain ⟨t1, p1⟩ := st
        subst h2
        exact foldRows_len_cov entry.chunk.rows tbl none t1 p1 heq

theorem rowsAtPos_append (q : Nat) (a b : List ReadEntry) :
    rowsAtPos q (a ++ b) = rowsAtPos q a + rowsAtPos q b := by
  induction a with
  | nil => simp [rowsAtPos]
  | cons e rest ih =>
    rw [List.cons_append]
    simp only [rowsAtPos]
    rw [ih]
    omega

theorem sdictReads_cons_eq (s0 : String) (entries : List ReadEntry)
    (rest : List (String × List ReadEntry)) :
    sdictReads s0 ((s0, entries) :: rest) = entries ++ sdictReads s0 rest := by
  simp [sdictReads]

theorem sdictReads_cons_ne {s0 s' : String} (h : s0 ≠ s') (entries : List ReadEntry)
    (rest : List (String × List ReadEntry)) :
    sdictReads s' ((s0, entries) :: rest) = sdictReads s' rest := by
  simp [sdictReads, h]

theorem readsFor_cons_eq (c' s' : String) (sdict : List (String × List ReadEntry)) (rest : RefDict) :
    readsFor c' s' ((c', sdict) :: rest) = sdictReads s' sdict ++ readsFor c' s' rest := by
  simp [readsFor]

theorem readsFor_cons_ne {c0 c' : String} (h : c0 ≠ c') (s' : String)
    (sdict : List (String × List ReadEntry)) (rest : RefDict) :
    readsFor c' s' ((c0, sdict) :: rest) = readsFor c' s' rest := by
  simp [readsFor, h]

theorem foldReads_len_cov {c s : String} :
    ∀ (entries : List ReadEntry) (tbl tbl' : List PosDict),
      foldReads c s entries tbl = .ok tbl' →
      tbl'.length = tbl.length ∧
      ∀ (q : Nat) (c' s' : String), covLen tbl' q c' s' =
        (covLen tbl q c' s').map
          (addN (if c' = c ∧ s' = s then rowsAtPos q entries else 0)) := by
  intro entries
  induction entries with
  | nil =>
    intro tbl tbl' h
    simp only [foldReads] at h
    injection h with h2
    subst h2
    refine ⟨rfl, ?_⟩
    intro q c' s'
    simp only [rowsAtPos, ite_self, map_addN_zero]
  | cons e rest ih =>
    intro tbl tbl' h
    simp only [foldReads] at h
    split at h
    · cases h
    · rename_i t1 heq
      obtain ⟨hlen1, hcov1⟩ := processRead_len_cov heq
      obtain ⟨hlen2, hcov2⟩ := ih t1 tbl' h
      refine ⟨hlen2.trans hlen1, ?_⟩
      intro q c' s'
      rw [hcov2 q c' s', hcov1 q c' s', map_addN_addN]
      have harith : (if c' = c ∧ s' = s then
            e.chunk.rows.countP (fun r => decide (r.ref_pos = q)) else 0) +
          (if c' = c ∧ s' = s then rowsAtPos q rest else 0) =
          (if c' = c ∧ s' = s then rowsAtPos q (e :: rest) else 0) := by
        by_cases hcs : c' = c ∧ s' = s
        · rw [if_pos hcs, if_pos hcs, if_pos hcs]
          simp only [rowsAtPos]
        · rw [if_neg hcs, if_neg hcs, if_neg hcs]
      rw [harith]

theorem foldSamples_len_cov {fps : List (String × List String)} {c : String} :
    ∀ (sdict : List (String × List ReadEntry)) (tbl tbl' : List PosDict),
      foldSamples fps c sdict tbl = .ok tbl' →
      tbl'.length = tbl.length ∧
      ∀ (q : Nat) (c' s' : String), covLen tbl' q c' s' =
        (covLen tbl q c' s').map
          (addN (if c' = c then rowsAtPos q (sdictReads s' sdict) else 0)) := by
  intro sdict
  induction sdict with
  | nil =>
    intro tbl tbl' h
    simp only [foldSamples] at h
    injection h with h2
    subst h2
    refine ⟨rfl, ?_⟩
    intro q c' s'
    simp only [sdictReads, rowsAtPos, ite_self, map_addN_zero]
  | cons p rest ih =>
    intro tbl tbl' h
    obtain ⟨s0, entries⟩ := p
    simp only [foldSamples] at h
    split at h
    · cases h
    · rename_i labs hlabs
      split at h
      · split at h
        · cases h
        · rename_i t1 heq
          obtain ⟨hlen1, hcov1⟩ := foldReads_len_cov entries tbl t1 heq
          obtain ⟨hlen2, hcov2⟩ := ih t1 tbl' h
          refine ⟨hlen2.trans hlen1, ?_⟩
          intro q c' s'
          rw [hcov2 q c' s', hcov1 q c' s', map_addN_addN]
          have harith : (if c' = c ∧ s' = s0 then rowsAtPos q entries else 0) +
              (if c' = c then rowsAtPos q (sdictReads s' rest) else 0) =
              (if c' = c then rowsAtPos q (sdictReads s' ((s0, entries) :: rest)) else 0) := by
            by_cases hc : c' = c
            · by_cases hss : s0 = s'
              · subst hss
                rw [if_pos ⟨hc, rfl⟩, if_pos hc, if_pos hc,
                  sdictReads_cons_eq, rowsAtPos_append]
              · rw [if_neg (fun hcon => hss hcon.2.symm), if_pos hc, if_pos hc,
                  sdictReads_cons_ne hss]
                omega
            · rw [if_neg (fun hcon => hc hcon.1), if_neg hc, if_neg hc]
          rw [harith]
      · cases h

theorem foldConds_len_cov {fps : List (String × List String)} :
    ∀ (rd : RefDict) (tbl tbl' : List PosDict),
      foldConds fps rd tbl = .ok tbl' →
      tbl'.length = tbl.length ∧
      ∀ (q : Nat) (c' s' : String), covLen tbl' q c' s' =
        (covLen tbl q c' s').map (addN (rowsAtPos q (readsFor c' s' rd))) := by
  intro rd
  induction rd with
  | nil =>
    intro tbl tbl' h
    simp only [foldConds] at h
    injection h with h2
    subst h2
    refine ⟨rfl, ?_⟩
    intro q c' s'
    simp only [readsFor, rowsAtPos, map_addN_zero]
  | cons p rest ih =>
    intro tbl tbl' h
    obtain ⟨c0, sdict⟩ := p
    simp only [foldConds] at h
    split at h
    · cases h
    · rename_i t1 heq
      obtain ⟨hlen1, hcov1⟩ := foldSamples_len_cov sdict tbl t1 heq
      obtain ⟨hlen2, hcov2⟩ := ih t1 tbl' h
      refine ⟨hlen2.trans hlen1, ?_⟩
      intro q c' s'
      rw [hcov2 q c' s', hcov1 q c' s', map_addN_addN]
      have harith : (if c' = c0 then rowsAtPos q (sdictReads s' sdict) else 0) +
          rowsAtPos q (readsFor c' s' rest) =
          rowsAtPos q (readsFor c' s' ((c0, sdict) :: rest)) := by
        by_cases hc : c0 = c'
        · subst hc
          rw [if_pos rfl, readsFor_cons_eq, rowsAtPos_append]
        · rw [if_neg (fun hcon => hc hcon.symm), readsFor_cons_ne hc]
          omega
      rw [harith]

/- Freshly created tables. -/

theorem makeRefPosList_length (ref_seq : String) (samples : List (String × List String)) :
    (makeRefPosList ref_seq samples).length = ref_seq.length - 4 := by
  simp [makeRefPosList]

theorem alookup_mem {β : Type _} {k : String} {v : β} {l : List (String × β)}
    (h : alookup k l = some v) : (k, v) ∈ l := by
  induction l with
  | nil => simp [alookup] at h
  | cons p t ih =>
    obtain ⟨k', v'⟩ := p
    by_cases hk : k' = k
    · subst hk
      rw [alookup_cons_self, Option.some_inj] at h
      subst h
      exact List.mem_cons_self _ _
    · rw [alookup_cons_ne hk] at h
      exact List.mem_cons_of_mem _ (ih h)

theorem alookup_empty_cell {samples : List (String × List String)} {c s : String}
    {sdict : List (String × SampleData)} {sd : SampleData}
    (h1 : alookup c (samples.map
        (fun cp => (cp.1, cp.2.map (fun s2 => (s2, emptySampleData))))) = some sdict)
    (h2 : alookup s sdict = some sd) : sd = emptySampleData := by
  have hm1 := alookup_mem h1
  rw [List.mem_map] at hm1
  obtain ⟨cp, hcp, heq⟩ := hm1
  injection heq with he1 he2
  subst he2
  have hm2 := alookup_mem h2
  rw [List.mem_map] at hm2
  obtain ⟨s2, hs2, heq2⟩ := hm2
  injection heq2 with hq1 hq2
  exact hq2.symm

theorem makeRefPosList_covLen {ref_seq : String} {samples : List (String × List String)}
    {q : Nat} {c s : String} {v : Nat × Nat × Nat}
    (h : covLen (makeRefPosList ref_seq samples) q c s = some v) : v = (0, 0, 0) := by
  unfold covLen slotData at h
  split at h
  · simp at h
  · rename_i pd heq
    obtain ⟨sd, hsd, hv⟩ := Option.map_eq_some'.mp h
    obtain ⟨sdict, hcd, hs⟩ := Option.bind_eq_some.mp hsd
    simp only [makeRefPosList, List.getElem?_map] at heq
    obtain ⟨pos, hpos, hbig⟩ := Option.map_eq_some'.mp heq
    subst hbig
    have hempty : sd = emptySampleData := alookup_empty_cell hcd hs
    subst hempty
    rw [← hv]
    rfl

theorem ingestAll_len_cov {cfg : Config} {rid : String} {rd : RefDict} {seq : String}
    {tbl' : List PosDict} (hseq : cfg.fasta rid = some seq)
    (h : ingestAll cfg (rid, rd) = .ok tbl') :
    tbl'.length = seq.length - 4 ∧
    ∀ (q : Nat) (c' s' : String) (v : Nat × Nat × Nat), covLen tbl' q c' s' = some v →
      v = (rowsAtPos q (readsFor c' s' rd), rowsAtPos q (readsFor c' s' rd),
           rowsAtPos q (readsFor c' s' rd)) := by
  simp only [ingestAll] at h
  split at h
  · cases h
  · rename_i seq2 hseq2
    rw [hseq] at hseq2
    injection hseq2 with he
    subst he
    obtain ⟨hlen, hcov⟩ := foldConds_len_cov rd _ tbl' h
    refine ⟨hlen.trans (makeRefPosList_length _ cfg.samples), ?_⟩
    intro q c' s' v hv
    rw [hcov q c' s'] at hv
    obtain ⟨v0, hv0, hvv⟩ := Option.map_eq_some'.mp hv
    have h00 : v0 = (0, 0, 0) := makeRefPosList_covLen hv0
    subst h00
    rw [← hvv]
    simp [addN]

/- Error propagation from a header mismatch. -/

theorem processRead_err_of_mismatch {c s : String} {tbl : List PosDict} {entry : ReadEntry}
    (hbad : ¬ entry.chunk.header_read_id = entry.read_id ∨
            ¬ entry.chunk.header_ref_id = entry.ref_id) :
    ∃ e, processRead c s tbl entry = .error e := by
  refine ⟨"Index and data files are not matching", ?_⟩
  simp only [processRead, if_pos hbad]

theorem foldReads_err_of_mismatch {c s : String} {entry : ReadEntry}
    (hbad : ¬ entry.chunk.header_read_id = entry.read_id ∨
            ¬ entry.chunk.header_ref_id = entry.ref_id) :
    ∀ (entries : List ReadEntry), entry ∈ entries →
      ∀ tbl : List PosDict, ∃ e, foldReads c s entries tbl = .error e := by
  intro entries
  induction entries with
  | nil => intro hmem; cases hmem
  | cons e0 rest ih =>
    intro hmem tbl
    rcases List.mem_cons.mp hmem with he | he
    · subst he
      obtain ⟨e, herr⟩ := @processRead_err_of_mismatch c s tbl entry hbad
      exact ⟨e, by simp only [foldReads, herr]⟩
    · cases hpr : processRead c s tbl e0 with
      | error e2 => exact ⟨e2, by simp only [foldReads, hpr]⟩
      | ok t1 =>
        obtain ⟨e, herr⟩ := ih he t1
        exact ⟨e, by simp only [foldReads, hpr]; exact herr⟩

theorem foldSamples_err_of_mismatch {fps : List (String × List String)} {c : String}
    {entry : ReadEntry}
    (hbad : ¬ entry.chunk.header_read_id = entry.read_id ∨
            ¬ entry.chunk.header_ref_id = entry.ref_id) :
    ∀ (sdict : List (String × List ReadEntry)) (s0 : String) (entries : List ReadEntry),
      (s0, entries) ∈ sdict → entry ∈ entries →
      ∀ tbl : List PosDict, ∃ e, foldSamples fps c sdict tbl = .error e := by
  intro sdict
  induction sdict with
  | nil => intro s0 entries hmem; cases hmem
  | cons p rest ih =>
    intro s0 entries hmem hent tbl
    obtain ⟨sp, es⟩ := p
    cases hcd : alookup c fps with
    | none => exact ⟨keyErrPy, by simp only [foldSamples, hcd]⟩
    | some labs =>
      by_cases hcont : labs.contains sp = true
      · rcases List.mem_cons.mp hmem with he | he
        · injection he with he1 he2
          subst he1
          subst he2
          obtain ⟨e, herr⟩ := @foldReads_err_of_mismatch c s0 entry hbad entries hent tbl
          exact ⟨e, by simp only [foldSamples, hcd, if_pos hcont, herr]⟩
        · cases hfr : foldReads c sp es tbl with
          | error e2 => exact ⟨e2, by simp only [foldSamples, hcd, if_pos hcont, hfr]⟩
          | ok t1 =>
            obtain ⟨e, herr⟩ := ih s0 entries he hent t1
            exact ⟨e, by simp only [foldSamples, hcd, if_pos hcont, hfr]; exact herr⟩
      · exact ⟨keyErrPy, by simp only [foldSamples, hcd, if_neg hcont]⟩

theorem foldConds_err_of_mismatch {fps : List (String × List String)} {entry : ReadEntry}
    (hbad : ¬ entry.chunk.header_read_id = entry.read_id ∨
            ¬ entry.chunk.header_ref_id = entry.ref_id) :
    ∀ (rd : RefDict) (c0 : String) (sdict : List (String × List ReadEntry))
      (s0 : String) (entries : List ReadEntry),
      (c0, sdict) ∈ rd → (s0, entries) ∈ sdict → entry ∈ entries →
      ∀ tbl : List PosDict, ∃ e, foldConds fps rd tbl = .error e := by
  intro rd
  induction rd with
  | nil => intro c0 sdict s0 entries hmem; cases hmem
  | cons p rest ih =>
    intro c0 sdict s0 entries hmemc hmems hent tbl
    obtain ⟨cp, sdp⟩ := p
    rcases List.mem_cons.mp hmemc with he | he
    · injection he with he1 he2
      subst he1
      subst he2
      obtain ⟨e, herr⟩ := @foldSamples_err_of_mismatch fps c0 entry hbad sdict s0 entries hmems hent tbl
      exact ⟨e, by simp only [foldConds, herr]⟩
    · cases hfs : foldSamples fps cp sdp tbl with
      | error e2 => exact ⟨e2, by simp only [foldConds, hfs]⟩
      | ok t1 =>
        obtain ⟨e, herr⟩ := ih c0 sdict s0 entries he hmems hent t1
        exact ⟨e, by simp only [foldConds, hfs]; exact herr⟩

theorem processItem_err_of_mismatch {cfg : Config} {rid : String} {rd : RefDict}
    {c0 : String} {sdict : List (String × List ReadEntry)} {s0 : String}
    {entries : List ReadEntry} {entry : ReadEntry}
    (hmemc : (c0, sdict) ∈ rd) (hmems : (s0, entries) ∈ sdict) (hent : entry ∈ entries)
    (hbad : ¬ entry.chunk.header_read_id = entry.read_id ∨
            ¬ entry.chunk.header_ref_id = entry.ref_id) :
    ∃ e, processItem cfg (rid, rd) = .error e := by
  have hia : ∃ e, ingestAll cfg (rid, rd) = .error e := by
    cases hf : cfg.fasta rid with
    | none => exact ⟨keyErrPy, by simp only [ingestAll, hf]⟩
    | some seq =>
      obtain ⟨e, herr⟩ := foldConds_err_of_mismatch hbad rd c0 sdict s0 entries
        hmemc hmems hent (makeRefPosList seq cfg.samples)
      exact ⟨e, by simp only [ingestAll, hf]; exact herr⟩
  obtain ⟨e, he⟩ := hia
  exact ⟨e, by simp only [processItem, he]⟩

theorem workerRun_err {cfg : Config} {item : String × RefDict} :
    ∀ (items : List (String × RefDict)), item ∈ items →
      (∃ e, processItem cfg item = .error e) →
      ∃ e, (workerRun cfg items).2 = some e := by
  intro items
  induction items with
  | nil => intro hmem; cases hmem
  | cons it rest ih =>
    intro hmem hpe
    rcases List.mem_cons.mp hmem with he | he
    · subst he
      obtain ⟨e, hee⟩ := hpe
      exact ⟨e, by simp only [workerRun, hee]⟩
    · cases hpi : processItem cfg it with
      | error e2 => exact ⟨e2, by simp only [workerRun, hpi]⟩
      | ok pr =>
        obtain ⟨e, hee⟩ := ih he hpe
        refine ⟨e, ?_⟩
        obtain ⟨tblx, ax⟩ := pr
        simp only [workerRun, hpi]
        exact hee

theorem runPipeline_err {cfg : Config} {assignment : List (List (String × RefDict))}
    {wl : List (String × RefDict)} (hwl : wl ∈ assignment)
    (hw : ∃ e, (workerRun cfg wl).2 = some e) :
    errQueue cfg assignment ≠ [] ∧ ∃ e, runPipeline cfg assignment = .error e := by
  obtain ⟨e, he⟩ := hw
  have hmem2 : (some e) ∈ assignment.map (fun its => (workerRun cfg its).2) :=
    List.mem_map.mpr ⟨wl, hwl, he⟩
  have hmem3 : e ∈ errQueue cfg assignment := by
    unfold errQueue
    rw [List.mem_filterMap]
    exact ⟨some e, hmem2, rfl⟩
  constructor
  · intro hnil
    rw [hnil] at hmem3
    cases hmem3
  · cases hq : errQueue cfg assignment with
    | nil =>
      rw [hq] at hmem3
      cases hmem3
    | cons e0 restq => exact ⟨e0, by simp only [runPipeline, hq]⟩

/- Counting poison pills. -/

theorem countNone_nil : countNone ([] : List (Option α)) = 0 := rfl

theorem countNone_cons_some (x : α) (l : List (Option α)) :
    countNone (some x :: l) = countNone l := by
  unfold countNone
  exact List.countP_cons_of_neg _ _ (by simp)

theorem countNone_cons_none (l : List (Option α)) :
    countNone (none :: l) = countNone l + 1 := by
  unfold countNone
  exact List.countP_cons_of_pos _ _ (by simp)

theorem countNone_append (a b : List (Option α)) :
    countNone (a ++ b) = countNone a + countNone b := by
  unfold countNone
  exact List.countP_append _ _ _

theorem countNone_replicate (n : Nat) :
    countNone (List.replicate n (none : Option α)) = n := by
  induction n with
  | zero => rfl
  | succ k ih => rw [List.replicate_succ, countNone_cons_none, ih]

theorem countNone_map_some (l : List α) : countNone (l.map some) = 0 := by
  induction l with
  | nil => rfl
  | cons x t ih => rw [List.map_cons, countNone_cons_some, ih]

theorem workerRun_pills_ok {cfg : Config} :
    ∀ items : List (String × RefDict), (workerRun cfg items).2 = none →
      countNone (workerRun cfg items).1 = 1 := by
  intro items
  induction items with
  | nil => intro _; rfl
  | cons it rest ih =>
    intro h
    cases hpi : processItem cfg it with
    | ok pr =>
      obtain ⟨tblx, ax⟩ := pr
      have h2 : (workerRun cfg (it :: rest)).1 =
          some (it.1, tblx) :: (workerRun cfg rest).1 := by
        simp only [workerRun, hpi]
      have h3 : (workerRun cfg (it :: rest)).2 = (workerRun cfg rest).2 := by
        simp only [workerRun, hpi]
      rw [h3] at h
      rw [h2, countNone_cons_some]
      exact ih h
    | error e =>
      have h3 : (workerRun cfg (it :: rest)).2 = some e := by
        simp only [workerRun, hpi]
      rw [h3] at h
      cases h

theorem workerRun_pills_crash {cfg : Config} :
    ∀ (items : List (String × RefDict)) (e : Err), (workerRun cfg items).2 = some e →
      countNone (workerRun cfg items).1 = cfg.nthreads := by
  intro items
  induction items with
  | nil =>
    intro e h
    cases h
  | cons it rest ih =>
    intro e h
    cases hpi : processItem cfg it with
    | ok pr =>
      obtain ⟨tblx, ax⟩ := pr
      have h2 : (workerRun cfg (it :: rest)).1 =
          some (it.1, tblx) :: (workerRun cfg rest).1 := by
        simp only [workerRun, hpi]
      have h3 : (workerRun cfg (it :: rest)).2 = (workerRun cfg rest).2 := by
        simp only [workerRun, hpi]
      rw [h3] at h
      rw [h2, countNone_cons_some]
      exact ih e h
    | error e2 =>
      have h2 : (workerRun cfg (it :: rest)).1 = List.replicate cfg.nthreads none := by
        simp only [workerRun, hpi]
      rw [h2, countNone_replicate]

theorem takeGroup_countNone (q : List (Option α)) (h : 1 ≤ countNone q) :
    countNone q = countNone (takeGroup q).2 + 1 := by
  induction q with
  | nil =>
    rw [countNone_nil] at h
    omega
  | cons o rest ih =>
    cases o with
    | none =>
      rw [countNone_cons_none]
      simp only [takeGroup]
    | some x =>
      rw [countNone_cons_some] at h
      rw [countNone_cons_some]
      have h2 : (takeGroup (some x :: rest)).2 = (takeGroup rest).2 := by
        simp only [takeGroup]
      rw [h2]
      exact ih h

theorem writerDrain_pills : ∀ (t : Nat) (q : List (Option α)), t ≤ countNone q →
    countNone q = t + countNone (writerDrain t q).2 := by
  intro t
  induction t with
  | zero =>
    intro q _
    simp only [writerDrain]
    omega
  | succ k ih =>
    intro q h
    have h1 : 1 ≤ countNone q := by omega
    have h2 := takeGroup_countNone q h1
    have h3 : (writerDrain (k + 1) q).2 = (writerDrain k (takeGroup q).2).2 := by
      simp only [writerDrain]
    rw [h3]
    have h4 : k ≤ countNone (takeGroup q).2 := by omega
    have h5 := ih (takeGroup q).2 h4
    omega

/- Comparison-method parsing. -/

theorem parseOneByOne_err {l : List String} :
    (∃ m ∈ l, invalidMethod m = true) → ∃ e, parseOneByOne l = .error e := by
  induction l with
  | nil =>
    intro h
    obtain ⟨m, hm, _⟩ := h
    cases hm
  | cons m0 rest ih =>
    intro h
    cases hc : methodCanon m0 with
    | error e => exact ⟨e, by simp only [parseOneByOne, hc]⟩
    | ok m0' =>
      obtain ⟨m, hm, hinv⟩ := h
      rcases List.mem_cons.mp hm with he | he
      · subst he
        simp only [invalidMethod, hc] at hinv
        exact (Bool.false_ne_true hinv).elim
      · obtain ⟨e, herr⟩ := ih ⟨m, he, hinv⟩
        refine ⟨e, ?_⟩
        simp only [parseOneByOne, hc, herr]

/- Shape of a successful processItem. -/

theorem processItem_args {cfg : Config} {item : String × RefDict} {tbl : List PosDict}
    {args : ComparatorArgs} (h : processItem cfg item = .ok (tbl, some args)) :
    args.random_state = RandomState.mk 42 ∧ args.ref_id = item.1 ∧
    args.methods = cfg.comparison_methods := by
  simp only [processItem] at h
  split at h
  · cases h
  · rename_i tbl0 hia
    split at h
    · injection h with h2
      injection h2 with h3 h4
      cases h4
    · injection h with h2
      injection h2 with h3 h4
      injection h4 with h5
      subst h5
      exact ⟨rfl, rfl, rfl⟩

theorem processItem_len {cfg : Config} {rid : String} {rd : RefDict} {seq : String}
    {tblF : List PosDict} {oargs : Option ComparatorArgs}
    (hseq : cfg.fasta rid = some seq)
    (h : processItem cfg (rid, rd) = .ok (tblF, oargs)) :
    tblF.length = seq.length - 4 := by
  simp only [processItem] at h
  split at h
  · cases h
  · rename_i tbl0 hia
    have hlen0 := (ingestAll_len_cov hseq hia).1
    split at h
    · injection h with h2
      injection h2 with h3 h4
      subst h3
      exact hlen0
    · injection h with h2
      injection h2 with h3 h4
      rw [← h3]
      unfold txCompare
      rw [List.length_map]
      exact hlen0

/- The compounding k-mer annotation. -/

theorem updateKmer_of_ne {stored rowk : String} (h : rowk ≠ stored) :
    updateKmer stored rowk = stored ++ "!!!!" := by
  simp [updateKmer, h]

theorem updateKmer_self (stored : String) : updateKmer stored stored = stored := by
  simp [updateKmer]

theorem length_append_marks (s : String) : (s ++ "!!!!").length = s.length + 4 := by
  rw [String.length_append]
  rfl

theorem foldl_updateKmer_long {rows : List String} :
    ∀ {s : String}, (∀ r ∈ rows, r.length = 5) → 5 < s.length →
      (List.foldl updateKmer s rows).length = s.length + 4 * rows.length := by
  induction rows with
  | nil =>
    intro s _ _
    simp
  | cons r rest ih =>
    intro s hall hs
    have hr5 : r.length = 5 := hall r (List.mem_cons_self r rest)
    have hne : r ≠ s := by
      intro he
      rw [he] at hr5
      omega
    rw [List.foldl_cons, updateKmer_of_ne hne]
    have hlong : 5 < (s ++ "!!!!").length := by
      rw [length_append_marks]
      omega
    rw [ih (fun r2 h2 => hall r2 (List.mem_cons_of_mem _ h2)) hlong, length_append_marks,
      List.length_cons]
    ring

theorem foldl_updateKmer_count {rows : List String} :
    ∀ {s : String}, (∀ r ∈ rows, r.length = 5) → s.length = 5 →
      (List.foldl updateKmer s rows).length =
        s.length + 4 * (rows.dropWhile (fun r => decide (r = s))).length := by
  induction rows with
  | nil =>
    intro s _ _
    simp [List.dropWhile]
  | cons r rest ih =>
    intro s hall hs
    by_cases hr : r = s
    · subst hr
      have hdw : List.dropWhile (fun r2 => decide (r2 = r)) (r :: rest) =
          List.dropWhile (fun r2 => decide (r2 = r)) rest := by
        simp [List.dropWhile]
      rw [List.foldl_cons, updateKmer_self, hdw]
      exact ih (fun r2 h2 => hall r2 (List.mem_cons_of_mem _ h2)) hs
    · have hdw : List.dropWhile (fun r2 => decide (r2 = s)) (r :: rest) = r :: rest := by
        simp [List.dropWhile, hr]
      rw [List.foldl_cons, updateKmer_of_ne hr, hdw]
      have hlong : 5 < (s ++ "!!!!").length := by
        rw [length_append_marks]
        omega
      rw [foldl_updateKmer_long (fun r2 h2 => hall r2 (List.mem_cons_of_mem _ h2)) hlong,
        length_append_marks, List.length_cons]
      ring

/- Coverage versus number of covering reads. -/

theorem nodup_countP_rows (q : Nat) :
    ∀ rows : List Row, (rows.map Row.ref_pos).Nodup →
      rows.countP (fun r => decide (r.ref_pos = q)) =
        if q ∈ rows.map Row.ref_pos then 1 else 0 := by
  intro rows
  induction rows with
  | nil => intro _; simp
  | cons r rest ih =>
    intro hnd
    rw [List.map_cons, List.nodup_cons] at hnd
    by_cases hq : r.ref_pos = q
    · subst hq
      have h1 : List.countP (fun r2 => decide (r2.ref_pos = r.ref_pos)) (r :: rest) =
          List.countP (fun r2 => decide (r2.ref_pos = r.ref_pos)) rest + 1 :=
        List.countP_cons_of_pos _ _ (by simp)
      have h2 : List.countP (fun r2 => decide (r2.ref_pos = r.ref_pos)) rest = 0 := by
        rw [List.countP_eq_zero]
        intro r2 hr2 hp
        exact hnd.1 (List.mem_map.mpr ⟨r2, hr2, of_decide_eq_true hp⟩)
      rw [h1, h2, List.map_cons, if_pos (List.mem_cons_self _ _)]
    · have h1 : List.countP (fun r2 => decide (r2.ref_pos = q)) (r :: rest) =
          List.countP (fun r2 => decide (r2.ref_pos = q)) rest :=
        List.countP_cons_of_neg _ _
          (by simp only [decide_eq_true_eq]; exact hq)
      rw [h1, ih hnd.2]
      have hq2 : ¬ q = r.ref_pos := fun he => hq he.symm
      rw [List.map_cons]
      by_cases hm : q ∈ rest.map Row.ref_pos
      · rw [if_pos hm, if_pos (List.mem_cons_of_mem _ hm)]
      · rw [if_neg hm, if_neg (by
          intro hcon
          rcases List.mem_cons.mp hcon with he | he
          · exact hq2 he
          · exact hm he)]

theorem rowsAtPos_nodup (q : Nat) :
    ∀ entries : List ReadEntry, (∀ e ∈ entries, (e.chunk.rows.map Row.ref_pos).Nodup) →
      rowsAtPos q entries =
        entries.countP (fun e => decide (q ∈ e.chunk.rows.map Row.ref_pos)) := by
  intro entries
  induction entries with
  | nil => intro _; rfl
  | cons e rest ih =>
    intro hnd
    have hhead := nodup_countP_rows q e.chunk.rows (hnd e (List.mem_cons_self e rest))
    have htail := ih (fun e2 h2 => hnd e2 (List.mem_cons_of_mem _ h2))
    simp only [rowsAtPos, hhead, htail, List.countP_cons]
    by_cases hm : q ∈ e.chunk.rows.map Row.ref_pos
    · rw [if_pos hm]
      have hd : decide (q ∈ e.chunk.rows.map Row.ref_pos) = true := decide_eq_true hm
      rw [hd, if_pos rfl]
      omega
    · rw [if_neg hm]
      have hd : decide (q ∈ e.chunk.rows.map Row.ref_pos) = false :=
        decide_eq_false hm
      rw [hd]
      simp

/-- Claim C2: evaluation of the gap-filling code at the failing input.  The
claim says that with the extended kmer-quality columns present every gap
between consecutive observed positions increments the skipped positions'
`missing` counters, including a gap immediately after observed position 0.
The code disagrees: for a read reporting positions [0, 2] the guard
`if prev_pos` (line 320) is false because `prev_pos == 0` is falsy in Python,
so position 1's `missing` counter stays 0; for a read reporting positions
[1, 3], where the previous position is nonzero, position 2's `missing`
counter does become 1. -/
theorem C2_gap_after_zero_eval :
    (∃ t, processRead "C1" "S1" tblC2 entryGap02 = .ok t ∧
      missingAt t 1 "C1" "S1" = some 0) ∧
    (∃ t, processRead "C1" "S1" tblC2 entryGap13 = .ok t ∧
      missingAt t 2 "C1" "S1" = some 1) :=
  ⟨⟨_, rfl, rfl⟩, ⟨_, rfl, rfl⟩⟩

/-- Claim C9 (counterexample): the claim as stated fails for a data row whose
`ref_kmer` equals the annotated stored k-mer.  Folding the k-mer consistency
update of lines 309-311 over the rows ["CCCCC", "AAAAA!!!!"] starting from
the stored k-mer "AAAAA" appends only one marker (final length 9), while the
claim predicts one marker per row from the first mismatching row onward
(length 5 + 4 * 2 = 13): the second row compares equal to the annotated
k-mer "AAAAA!!!!" and appends nothing. -/
theorem C9_compounding_counterexample :
    (List.foldl updateKmer "AAAAA" ["CCCCC", "AAAAA!!!!"]).length = 9 ∧
    "AAAAA".length + 4 *
      ((["CCCCC", "AAAAA!!!!"].dropWhile (fun r => decide (r = "AAAAA"))).length) = 13 ∧
    (9 : Nat) ≠ 13 :=
  ⟨rfl, rfl, by decide⟩

/-- Claim C9 (amended): the suspect annotation compounds — each row's
`ref_kmer` is compared against the currently stored, possibly annotated,
k-mer, so once a mismatch is recorded every subsequent k-mer-length row also
mismatches.  Provided every data row's `ref_kmer` has the k-mer length 5 (so
no row can equal an annotated stored k-mer, whose length is at least 9), the
number of appended "!!!!" markers equals the number of rows at that position
from the first mismatching row onward. -/
theorem C9_compounding_amended (s0 : String) (rows : List String)
    (hall : ∀ r ∈ rows, r.length = 5) (hs : s0.length = 5) :
    (List.foldl updateKmer s0 rows).length =
      s0.length + 4 * ((rows.dropWhile (fun r => decide (r = s0))).length) :=
  foldl_updateKmer_count hall hs

/-- Claim C9 (witness): instance of the amended claim at the stored k-mer
"AAAAA" and rows ["CCCCC", "AAAAA"]: the first row mismatches, and the
second row, although it equals the original reference k-mer, mismatches
against the annotated "AAAAA!!!!" as well, for a final length of 13. -/
theorem C9_compounding_witness :
    (List.foldl updateKmer "AAAAA" ["CCCCC", "AAAAA"]).length =
      "AAAAA".length + 4 *
        ((["CCCCC", "AAAAA"].dropWhile (fun r => decide (r = "AAAAA"))).length) ∧
    (List.foldl updateKmer "AAAAA" ["CCCCC", "AAAAA"]).length = 13 :=
  ⟨C9_compounding_amended "AAAAA" ["CCCCC", "AAAAA"] (by decide) (by decide), by decide⟩

/-- Claim C10: with the extended kmer-quality columns present the per-row
normalisation divides by the row's dwell_time with no guard (lines 324-326).
For every row with nonzero dwell_time whose position is inside the table and
whose (condition, sample) cell exists at every position, ingestion of the row
succeeds — the division-error branch is unreachable — whereas a concrete row
with dwell_time = 0 makes the Worker's ingestion of that row fail with a
ZeroDivisionError. -/
theorem C10_division_guard :
    (∀ (c s : String) (tbl : List PosDict) (prev : Option Nat) (row : Row),
      row.ref_pos < tbl.length →
      (∀ p : Nat, p < tbl.length → (slotData tbl p c s).isSome = true) →
      ¬ row.dwell_time = 0 →
      ∃ out, ingestRow c s true (tbl, prev) row = .ok out) ∧
    (∃ e, ingestRow "C1" "S1" true (tblC2, none) rowDw0 = .error e) := by
  constructor
  · intro c s tbl prev row hpos hslots hdw
    exact ingestRow_ok_exists hpos hslots (fun _ => hdw)
  · exact ⟨zeroDivErrPy, rfl⟩

/-- Claim C10 (witness): the success half of C10 applied to a concrete row
with dwell_time 1 at position 1 of a concrete table. -/
theorem C10_division_guard_witness :
    ∃ out, ingestRow "C1" "S1" true (tblC2, none) (rowW 1 "AAAAA") = .ok out :=
  C10_division_guard.1 "C1" "S1" tblC2 none (rowW 1 "AAAAA")
    (by decide) (by decide) (by decide)

/-- Claim C7: when comparison methods are configured the worker passes the
comparator a pseudo-random state freshly seeded with the fixed constant 42
(line 335), independent of the reference: whenever `processItem` returns a
comparator argument record, its random state is `RandomState.mk 42`; the
worker computation is a pure function, so repeated runs on identical inputs
are identical; and any two comparator calls receive equal random states. -/
theorem C7_fixed_seed :
    ∀ (cfg : Config) (item : String × RefDict) (tbl : List PosDict) (args : ComparatorArgs),
      processItem cfg item = .ok (tbl, some args) →
      args.random_state = RandomState.mk 42 ∧
      processItem cfg item = processItem cfg item ∧
      (∀ (cfg' : Config) (item' : String × RefDict) (tbl' : List PosDict)
        (args' : ComparatorArgs),
        processItem cfg' item' = .ok (tbl', some args') →
        args.random_state = args'.random_state) := by
  intro cfg item tbl args h
  refine ⟨(processItem_args h).1, rfl, ?_⟩
  intro cfg' item' tbl' args' h'
  rw [(processItem_args h).1, (processItem_args h').1]

/-- Claim C7 (witness): a concrete configured run whose comparator call
carries the seed 42. -/
theorem C7_fixed_seed_witness :
    ∃ tbl args, processItem cfgW ("tx1", refDictW) = .ok (tbl, some args) ∧
      args.random_state = RandomState.mk 42 := by
  cases h : processItem cfgW ("tx1", refDictW) with
  | error e =>
    have hck : (argsOf (processItem cfgW ("tx1", refDictW))).isSome = true := rfl
    rw [h] at hck
    simp [argsOf] at hck
  | ok pr =>
    obtain ⟨tbl, oa⟩ := pr
    cases oa with
    | none =>
      have hck : (argsOf (processItem cfgW ("tx1", refDictW))).isSome = true := rfl
      rw [h] at hck
      simp [argsOf] at hck
    | some args =>
      exact ⟨tbl, args, rfl, (C7_fixed_seed cfgW ("tx1", refDictW) tbl args h).1⟩

/-- Claim C6: a data row whose `ref_kmer` differs from the table's stored
k-mer at the row's position does not make the worker raise: ingestion
succeeds, the stored k-mer is annotated by appending the "!!!!" marker
(lines 309-311), and the row's median is still appended to intensity, its
dwell_time to dwell, and coverage is still incremented, exactly as for a
matching row (lines 314-316). -/
theorem C6_kmer_mismatch_nonfatal (c s : String) (tbl : List PosDict) (prev : Option Nat)
    (row : Row) (ks : Bool) (pd : PosDict) (sd : SampleData)
    (hpd : tbl[row.ref_pos]? = some pd)
    (hsd : slotData tbl row.ref_pos c s = some sd)
    (hslots : ∀ p : Nat, p < tbl.length → (slotData tbl p c s).isSome = true)
    (hdw : ks = true → ¬ row.dwell_time = 0)
    (hk : ¬ row.ref_kmer = pd.ref_kmer) :
    ∃ tbl' prev', ingestRow c s ks (tbl, prev) row = .ok (tbl', prev') ∧
      (tbl'[row.ref_pos]?).map PosDict.ref_kmer = some (pd.ref_kmer ++ "!!!!") ∧
      (slotData tbl' row.ref_pos c s).map (fun x => x.intensity) =
        some (sd.intensity ++ [row.median]) ∧
      (slotData tbl' row.ref_pos c s).map (fun x => x.dwell) =
        some (sd.dwell ++ [row.dwell_time]) ∧
      (slotData tbl' row.ref_pos c s).map (fun x => x.coverage) =
        some (sd.coverage + 1) := by
  have hpos : row.ref_pos < tbl.length := (List.getElem?_eq_some_iff.mp hpd).1
  obtain ⟨out, hout⟩ := @ingestRow_ok_exists c s ks tbl prev row hpos hslots hdw
  obtain ⟨tbl', prev'⟩ := out
  obtain ⟨_, _, hkm, _, hi, hd, hc2⟩ := ingestRow_ok_destruct hout
  refine ⟨tbl', prev', hout, ?_, ?_, ?_, ?_⟩
  · rw [hkm, hpd]
    simp only [Option.map_some']
    rw [updateKmer_of_ne hk]
  · rw [hi, hsd]
    rfl
  · rw [hd, hsd]
    rfl
  · rw [hc2, hsd]
    rfl

/-- Claim C6 (witness): a row with k-mer "CCCCC" at position 0 of a table
storing "AAAAA" is ingested without error, the stored k-mer becomes
"AAAAA!!!!", and the cell receives the row's median and dwell time and a
coverage of 1. -/
theorem C6_kmer_mismatch_witness :
    ∃ tbl' prev', ingestRow "C1" "S1" false (tblC2, none) rowMisW = .ok (tbl', prev') ∧
      (tbl'[rowMisW.ref_pos]?).map PosDict.ref_kmer = some (pdW.ref_kmer ++ "!!!!") ∧
      (slotData tbl' rowMisW.ref_pos "C1" "S1").map (fun x => x.intensity) =
        some (emptySampleData.intensity ++ [rowMisW.median]) ∧
      (slotData tbl' rowMisW.ref_pos "C1" "S1").map (fun x => x.dwell) =
        some (emptySampleData.dwell ++ [rowMisW.dwell_time]) ∧
      (slotData tbl' rowMisW.ref_pos "C1" "S1").map (fun x => x.coverage) =
        some (emptySampleData.coverage + 1) :=
  C6_kmer_mismatch_nonfatal "C1" "S1" tblC2 none rowMisW false pdW emptySampleData
    rfl rfl (by decide) (fun h => nomatch h) (by decide)

/-- Claim C8: configuration errors are raised synchronously in the
constructor, before any pipeline process exists: `SampComp.__init__` raises a
NanocomporeError whenever fewer than 3 threads are requested (lines 134-135),
whenever the condition mapping does not have exactly 2 conditions
(lines 414-415), or whenever any comparison method, after case-insensitive
normalisation and comma-splitting, is not one of MW/MANN_WHITNEY,
KS/KOLMOGOROV_SMIRNOV, TT/T_TEST, GMM/GAUSSIAN_MIXTURE_MODEL
(lines 138-152).  The embedded constructor returns an error, so no state for
`__call__` — which alone creates queues and processes — is produced. -/
theorem C8_config_errors (access : String → Bool) (a : InitArgs)
    (h : a.nthreads < 3 ∨ a.eventalign_fn_dict.length ≠ 2 ∨
         (methodsTruthy a.comparison_methods = true ∧
          ∃ m ∈ methodsToList a.comparison_methods, invalidMethod m = true)) :
    ∃ e, sampCompInit access a = .error e := by
  cases hd : checkEventalignFnDict access a.eventalign_fn_dict with
  | error e => exact ⟨e, by simp only [sampCompInit, hd]⟩
  | ok d =>
    have hlen2 : ¬ a.eventalign_fn_dict.length ≠ 2 := by
      intro hne
      have hck : checkEventalignFnDict access a.eventalign_fn_dict =
          .error "2 conditions are expected" := by
        simp only [checkEventalignFnDict, if_pos hne]
      rw [hck] at hd
      cases hd
    by_cases hfa : access a.fasta_fn = true
    · by_cases hbed : (match a.bed_fn with | some b => ! access b | none => false) = true
      · refine ⟨"is not a valid BED file", ?_⟩
        simp only [sampCompInit, hd]
        rw [if_neg (by simp [hfa]), if_pos hbed]
      · by_cases hn3 : a.nthreads < 3
        · refine ⟨"The minimum number of threads is 3", ?_⟩
          simp only [sampCompInit, hd]
          rw [if_neg (by simp [hfa]), if_neg hbed, if_pos hn3]
        · rcases h with hn | hl | hm
          · exact absurd hn hn3
          · exact absurd hl hlen2
          · obtain ⟨e, herr⟩ := parseOneByOne_err hm.2
            refine ⟨e, ?_⟩
            have hpm : parseMethods a.comparison_methods = .error e := by
              unfold parseMethods
              rw [if_pos hm.1]
              exact herr
            simp only [sampCompInit, hd]
            rw [if_neg (by simp [hfa]), if_neg hbed, if_neg hn3]
            simp only [hpm]
    · refine ⟨a.fasta_fn ++ " is not a valid FASTA file", ?_⟩
      simp only [sampCompInit, hd]
      rw [if_pos hfa]

/-- Claim C8 (witness): a constructor call with nthreads = 2 errors. -/
theorem C8_config_errors_witness :
    initArgsBadW.nthreads < 3 ∧ ∃ e, sampCompInit accW initArgsBadW = .error e :=
  ⟨by decide, C8_config_errors accW initArgsBadW (Or.inl (by decide))⟩

/-- Claim C4: for a reference whose sequence has length L, the table built by
`__make_ref_pos_list` has exactly L - 4 entries (k = 5, lines 471-484), and
no subsequent operation — row ingestion, gap filling, k-mer annotation
(`ingestAll`) or the comparator annotation (`processItem`, with the external
comparator modelled from the spec as per-position annotation) — changes the
number of entries before the table is emitted to the writer. -/
theorem C4_table_length_invariant (cfg : Config) (rid : String) (rd : RefDict) (seq : String)
    (hseq : cfg.fasta rid = some seq) :
    (makeRefPosList seq cfg.samples).length = seq.length - 4 ∧
    (∀ tbl : List PosDict, ingestAll cfg (rid, rd) = .ok tbl →
      tbl.length = seq.length - 4) ∧
    (∀ (tblF : List PosDict) (oargs : Option ComparatorArgs),
      processItem cfg (rid, rd) = .ok (tblF, oargs) → tblF.length = seq.length - 4) := by
  refine ⟨makeRefPosList_length seq cfg.samples, ?_, ?_⟩
  · intro tbl h
    exact (ingestAll_len_cov hseq h).1
  · intro tblF oargs h
    exact processItem_len hseq h

/-- Claim C4 (witness): for the 7-base reference "ACGTACG" the created table
and the fully processed, comparator-annotated table both have 3 entries. -/
theorem C4_table_length_witness :
    (makeRefPosList seqW cfgW.samples).length = 3 ∧
    ∃ tblF oargs, processItem cfgW ("tx1", refDictW) = .ok (tblF, oargs) ∧
      tblF.length = 3 := by
  constructor
  · exact ((C4_table_length_invariant cfgW "tx1" refDictW seqW rfl).1).trans (by decide)
  · cases h : processItem cfgW ("tx1", refDictW) with
    | error e =>
      have hck : (argsOf (processItem cfgW ("tx1", refDictW))).isSome = true := rfl
      rw [h] at hck
      simp [argsOf] at hck
    | ok pr =>
      obtain ⟨tblF, oargs⟩ := pr
      refine ⟨tblF, oargs, rfl, ?_⟩
      have hl := (C4_table_length_invariant cfgW "tx1" refDictW seqW rfl).2.2 tblF oargs h
      rw [hl]
      decide

/-- Claim C5: after a worker folds all assigned reads of a reference into the
table, for every position and every (condition, sample) cell, the coverage
counter and the lengths of the cell's intensity and dwell sequences all equal
the number of data rows naming that position among the reads listed for that
(condition, sample) in the descriptor; and under the assumption that no read
names the same position twice, that number equals the number of reads whose
data rows named the position. -/
theorem C5_coverage_counts (cfg : Config) (rid : String) (rd : RefDict) (tbl : List PosDict)
    (h : ingestAll cfg (rid, rd) = .ok tbl) (q : Nat) (c s : String) (v : Nat × Nat × Nat)
    (hv : covLen tbl q c s = some v) :
    v = (rowsAtPos q (readsFor c s rd), rowsAtPos q (readsFor c s rd),
         rowsAtPos q (readsFor c s rd)) ∧
    ((∀ e ∈ readsFor c s rd, (e.chunk.rows.map Row.ref_pos).Nodup) →
      rowsAtPos q (readsFor c s rd) =
        (readsFor c s rd).countP
          (fun e => decide (q ∈ e.chunk.rows.map Row.ref_pos))) := by
  have hseq : ∃ seq, cfg.fasta rid = some seq := by
    cases hf : cfg.fasta rid with
    | none =>
      have hfail : ingestAll cfg (rid, rd) = .error keyErrPy := by
        simp only [ingestAll, hf]
      rw [hfail] at h
      cases h
    | some seq => exact ⟨seq, rfl⟩
  obtain ⟨seq, hseq⟩ := hseq
  constructor
  · exact (ingestAll_len_cov hseq h).2 q c s v hv
  · intro hnd
    exact rowsAtPos_nodup q (readsFor c s rd) hnd

/-- Claim C5 (witness): for a concrete run with one read covering positions
0 and 1 under condition "C1", sample "S1", the cell at position 0 has
coverage 1 and intensity and dwell sequences of length 1, matching the one
data row naming position 0. -/
theorem C5_coverage_witness :
    ∃ tbl, ingestAll cfgW ("tx1", refDictW) = .ok tbl ∧
      covLen tbl 0 "C1" "S1" = some (1, 1, 1) ∧
      rowsAtPos 0 (readsFor "C1" "S1" refDictW) = 1 := by
  cases h : ingestAll cfgW ("tx1", refDictW) with
  | error e =>
    have hck : (tblOf (ingestAll cfgW ("tx1", refDictW))).isSome = true := rfl
    rw [h] at hck
    simp [tblOf] at hck
  | ok tbl =>
    have hv : covOf (ingestAll cfgW ("tx1", refDictW)) 0 "C1" "S1" = some (1, 1, 1) := rfl
    rw [h] at hv
    simp only [covOf] at hv
    have hmain := C5_coverage_counts cfgW "tx1" refDictW tbl h 0 "C1" "S1" (1, 1, 1) hv
    have hn : rowsAtPos 0 (readsFor "C1" "S1" refDictW) = 1 :=
      ((congrArg Prod.fst hmain.1).symm).trans rfl
    exact ⟨tbl, rfl, hv, hn⟩

/-- Claim C3: a read whose header fields do not match the descriptor's
(read_id, ref_id) makes the worker raise a NanocomporeError (lines 288-291);
the traceback is reported on the error channel and the supervisor turns the
first reported error into a raised failure (lines 216-218), so the whole run
fails and no fully successful store is returned. -/
theorem C3_header_mismatch_fails_run (cfg : Config)
    (assignment : List (List (String × RefDict))) (wl : List (String × RefDict))
    (rid : String) (rd : RefDict) (c0 : String) (sdict : List (String × List ReadEntry))
    (s0 : String) (entries : List ReadEntry) (entry : ReadEntry)
    (hwl : wl ∈ assignment) (hitem : (rid, rd) ∈ wl) (hc : (c0, sdict) ∈ rd)
    (hs : (s0, entries) ∈ sdict) (hent : entry ∈ entries)
    (hbad : ¬ entry.chunk.header_read_id = entry.read_id ∨
            ¬ entry.chunk.header_ref_id = entry.ref_id) :
    errQueue cfg assignment ≠ [] ∧ ∃ e, runPipeline cfg assignment = .error e := by
  have hpe := @processItem_err_of_mismatch cfg rid rd c0 sdict s0 entries entry hc hs hent hbad
  have hw := workerRun_err wl hitem hpe
  exact runPipeline_err hwl hw

/-- Claim C3 (witness): a concrete run whose single read's header carries
read id "rX" while the descriptor says "r1" puts an error on the error
channel and makes the pipeline fail. -/
theorem C3_header_mismatch_witness :
    errQueue cfgW assignBadW ≠ [] ∧ ∃ e, runPipeline cfgW assignBadW = .error e :=
  C3_header_mismatch_fails_run cfgW assignBadW [("tx1", refDictBadW)] "tx1" refDictBadW
    "C1" [("S1", [entryBadW])] "S1" [entryBadW] entryBadW
    (List.mem_singleton.mpr rfl) (List.mem_singleton.mpr rfl)
    (List.mem_cons_self _ _) (List.mem_singleton.mpr rfl) (List.mem_singleton.mpr rfl)
    (Or.inl (by decide))

/-- Claim C1 (counterexample): the claim as stated says a worker that crashes
mid-task emits exactly one termination marker.  With `self.__nthreads = 2`, a
worker that crashes on its first task puts two poison pills on the result
queue (lines 360-361), not one. -/
theorem C1_poison_pill_counterexample :
    countNone (workerRun cfgMissW [("tx9", [])]).1 = 2 ∧
    countNone (workerRun cfgMissW [("tx9", [])]).1 ≠ 1 :=
  ⟨rfl, by decide⟩

/-- Claim C1 (amended): poison-pill discipline for worker count T =
`self.__nthreads` (= nthreads - 2): the dispatcher pushes exactly T
termination markers after exhausting the whitelist, and also exactly T when
iteration raises (lines 251-252, 257-258); a worker that completes normally
emits exactly one marker (line 353), while a worker that crashes mid-task
emits T markers — its own among them — so the writer cannot hang
(lines 360-361); and the writer consumes exactly T sentinel-delimited
subsequences from the result queue before finishing (lines 373-374). -/
theorem C1_poison_pill_amended (cfg : Config) :
    (∀ (produced : List (String × RefDict)) (iterFail : Option Err),
      countNone (dispatcherRun cfg produced iterFail).1 = cfg.nthreads) ∧
    (∀ items : List (String × RefDict), (workerRun cfg items).2 = none →
      countNone (workerRun cfg items).1 = 1) ∧
    (∀ (items : List (String × RefDict)) (e : Err), (workerRun cfg items).2 = some e →
      countNone (workerRun cfg items).1 = cfg.nthreads) ∧
    (∀ q : List (Option (String × List PosDict)), cfg.nthreads ≤ countNone q →
      countNone q = cfg.nthreads + countNone (writerDrain cfg.nthreads q).2) := by
  refine ⟨?_, workerRun_pills_ok, workerRun_pills_crash,
    fun q hq => writerDrain_pills cfg.nthreads q hq⟩
  intro produced iterFail
  unfold dispatcherRun
  rw [countNone_append, countNone_map_some, countNone_replicate]
  omega

/-- Claim C1 (witness): concrete instances of the amended discipline with
T = 2: the dispatcher emits 2 pills, an idle worker emits 1 pill, a crashing
worker emits 2 pills, and the writer consumes exactly 2 sentinels. -/
theorem C1_poison_pill_witness :
    countNone (dispatcherRun cfg2W [("tx1", refDictW)] none).1 = 2 ∧
    countNone (workerRun cfg2W ([] : List (String × RefDict))).1 = 1 ∧
    countNone (workerRun cfgMissW [("tx9", [])]).1 = 2 ∧
    countNone ([none, none] : List (Option (String × List PosDict))) =
      2 + countNone (writerDrain 2 ([none, none] : List (Option (String × List PosDict)))).2 :=
  ⟨(C1_poison_pill_amended cfg2W).1 [("tx1", refDictW)] none,
   (C1_poison_pill_amended cfg2W).2.1 [] rfl,
   (C1_poison_pill_amended cfgMissW).2.2.1 [("tx9", [])] keyErrPy rfl,
   (C1_poison_pill_amended cfgMissW).2.2.2 [none, none] (by decide)⟩
